import Mathlib

/-!
# DeepMQ broker — verification of the specification claims

A shallow embedding of the DeepMQ AMQP 0-9-1 broker (TypeScript sources under
`src/`) into Lean 4, together with theorems settling the specification claims.

Conventions used throughout the embedding:
* JS strings are Lean `String`s; where byte-level behaviour matters (the wire
  codec) a string is represented by its UTF-8 byte list (`List Nat`).
* `Buffer`s are `List Nat` byte lists.
* JS `Map`s are association lists in insertion order (JS maps iterate in
  insertion order).
* `bigint` counters (delivery tags) are `Nat` (they only ever increase from 0).
* Functions that can throw in JS return `Option`.
* Wall-clock values (`Date.now()`, `deliveredAt`, `createdAt`) are passed in as
  explicit `now` parameters or omitted when no claim depends on them.
-/

set_option maxHeartbeats 1000000

namespace DeepMQ

/-! ## JS `String.split('.')` (used by src/routing/topic-exchange.ts)

JS `split` with a one-character separator always returns at least one element:
`"".split('.') == [""]`, `".".split('.') == ["", ""]`. -/

/-- JS `s.split('.')` on the character list of `s`. -/
def splitDotChars : List Char → List String
  | [] => [""]
  | c :: rest =>
    let r := splitDotChars rest
    if c = '.' then "" :: r
    else
      match r with
      | [] => [String.mk [c]]
      | w :: ws => String.mk (c :: w.data) :: ws

/-- JS `s.split('.')`. -/
def splitOnDot (s : String) : List String := splitDotChars s.data

example : splitOnDot "" = [""] := by decide
example : splitOnDot "a.b" = ["a", "b"] := by decide
example : splitOnDot "." = ["", ""] := by decide

/-! ## Topic pattern matcher (src/routing/topic-exchange.ts, `matchesPattern`)

The source walks the two word lists with indices `ri`/`pi`; on a non-final `#`
it scans every remaining routing position (`matchHash` below), recursing on the
re-joined suffixes (joining and re-splitting is the identity here because split
words never contain a dot and the recursed-on suffixes are non-empty). -/

mutual

/-- The main `while (pi < patternWords.length)` loop of `matchesPattern`,
expressed over the remaining routing words and pattern words. -/
def matchWords : List String → List String → Bool
  | rs, [] => rs.isEmpty
  | rs, p :: ps =>
    if p = "#" then
      -- `#` at the end matches everything remaining
      if ps.isEmpty then true
      else matchHash rs ps
    else if p = "*" then
      match rs with
      | [] => false
      | _ :: rest => matchWords rest ps
    else
      match rs with
      | [] => false
      | r :: rest => (r == p) && matchWords rest ps
termination_by rs ps => (ps.length, rs.length, 0)

/-- The inner `while (ri <= routingWords.length)` scan for a non-final `#`:
`ps` is the pattern suffix after the `#` (non-empty at every call site); when
the routing words run out the remaining pattern must be all `#`. -/
def matchHash : List String → List String → Bool
  | [], ps => ps.all (fun w => w == "#")
  | r :: rest, ps =>
    (let next := ps.headD ""
     ((next == "*") || (next == "#") || (r == next)) && matchWords (r :: rest) ps)
    || matchHash rest ps
termination_by rs ps => (ps.length, rs.length, 1)

end

/-- `matchesPattern(routingKey, pattern)` from src/routing/topic-exchange.ts. -/
def matchesPattern (routingKey pattern : String) : Bool :=
  matchWords (splitOnDot routingKey) (splitOnDot pattern)

/-- Evaluate `matchesPattern` on closed inputs through the word lists. -/
theorem matchesPattern_eval {rk pat : String} {rs ps : List String}
    (h1 : splitOnDot rk = rs) (h2 : splitOnDot pat = ps) :
    matchesPattern rk pat = matchWords rs ps := by
  simp [matchesPattern, h1, h2]

example : matchesPattern "stock.nasdaq" "stock.*" = true := by
  have h : matchesPattern "stock.nasdaq" "stock.*"
      = matchWords ["stock", "nasdaq"] ["stock", "*"] :=
    matchesPattern_eval (by decide) (by decide)
  rw [h]; simp [matchWords, matchHash]
example : matchesPattern "weather.usa" "#" = true := by
  have h : matchesPattern "weather.usa" "#" = matchWords ["weather", "usa"] ["#"] :=
    matchesPattern_eval (by decide) (by decide)
  rw [h]; simp [matchWords]
example : matchesPattern "" "*" = true := by
  have h : matchesPattern "" "*" = matchWords [""] ["*"] :=
    matchesPattern_eval (by decide) (by decide)
  rw [h]; simp [matchWords]
example : matchesPattern "a.b.c" "#.b.#" = true := by
  have h : matchesPattern "a.b.c" "#.b.#" = matchWords ["a", "b", "c"] ["#", "b", "#"] :=
    matchesPattern_eval (by decide) (by decide)
  rw [h]; simp [matchWords, matchHash]
example : matchesPattern "a" "a.b" = false := by
  have h : matchesPattern "a" "a.b" = matchWords ["a"] ["a", "b"] :=
    matchesPattern_eval (by decide) (by decide)
  rw [h]; simp [matchWords, matchHash]

/-! ## Wire codec: AMQP field values and field tables

`FrameBuilder.encodeFieldValue` / `encodeFieldTable` (src/protocol/frame-builder.ts)
and `FrameParser.readFieldValue` / `readFieldTable` (frame parser).

A JS field value is one of: `null`/`undefined`, `boolean`, `number`, `bigint`,
`string`, `Date`, `Buffer`, `Array`, plain object (nested table).  The
embedding restricts JS `number` to exact integers: the source encodes
out-of-int32 or fractional numbers (and decodes the `f`/`d`/`D` tags) through
IEEE-754 floats, which are outside this integer byte model, so those paths are
mapped to `none` here.  JS strings appear as their UTF-8 byte lists. -/

/-- AMQP field value (tagged union per spec §9 of the repo docs). -/
inductive FieldValue where
  | vBool (b : Bool)
  | vNum (v : Int)
  | vBig (v : Int)
  | vStr (s : List Nat)
  | vDate (ms : Int)
  | vBytes (bs : List Nat)
  | vArr (vs : List FieldValue)
  | vTable (t : List (List Nat × FieldValue))
  | vNull

/-- Big-endian bytes of a 16-bit unsigned value (`writeUInt16BE`). -/
def u16Bytes (n : Nat) : List Nat := [n / 2 ^ 8 % 256, n % 256]

/-- Big-endian bytes of a 32-bit unsigned value (`writeUInt32BE`). -/
def u32Bytes (n : Nat) : List Nat :=
  [n / 2 ^ 24 % 256, n / 2 ^ 16 % 256, n / 2 ^ 8 % 256, n % 256]

/-- Big-endian bytes of a 64-bit unsigned value (`writeBigUInt64BE`). -/
def u64Bytes (n : Nat) : List Nat :=
  [n / 2 ^ 56 % 256, n / 2 ^ 48 % 256, n / 2 ^ 40 % 256, n / 2 ^ 32 % 256,
   n / 2 ^ 24 % 256, n / 2 ^ 16 % 256, n / 2 ^ 8 % 256, n % 256]

/-- Two's-complement byte of an 8-bit signed value (`writeInt8`). -/
def i8Bytes (v : Int) : List Nat := [(v % 2 ^ 8).toNat]

/-- Two's-complement bytes of a 16-bit signed value (`writeInt16BE`). -/
def i16Bytes (v : Int) : List Nat := u16Bytes (v % 2 ^ 16).toNat

/-- Two's-complement bytes of a 32-bit signed value (`writeInt32BE`). -/
def i32Bytes (v : Int) : List Nat := u32Bytes (v % 2 ^ 32).toNat

/-- Two's-complement bytes of a 64-bit signed value (`writeBigInt64BE`). -/
def i64Bytes (v : Int) : List Nat := u64Bytes (v % 2 ^ 64).toNat

/-- `FrameBuilder.encodeShortString`: length byte + bytes; throws above 255. -/
def encodeShortString (s : List Nat) : Option (List Nat) :=
  if s.length ≤ 255 then some (s.length :: s) else none

mutual

/-- `FrameBuilder.encodeFieldValue`.  Branches follow the source `typeof`
dispatch: null, boolean, number (integer sub-ranges, else IEEE-754 double —
unmodelled, `none`), bigint, string, Date, Buffer, Array, object. -/
def encodeFieldValue : FieldValue → Option (List Nat)
  | .vNull => some [0x56]
  | .vBool b => some [0x74, if b then 1 else 0]
  | .vNum v =>
    if -128 ≤ v ∧ v ≤ 127 then some (0x62 :: i8Bytes v)
    else if -32768 ≤ v ∧ v ≤ 32767 then some (0x73 :: i16Bytes v)
    else if -2147483648 ≤ v ∧ v ≤ 2147483647 then some (0x49 :: i32Bytes v)
    else none
  | .vBig v =>
    if -(2 ^ 63) ≤ v ∧ v < 2 ^ 63 then some (0x6c :: i64Bytes v) else none
  | .vStr s =>
    if s.length < 2 ^ 32 then some (0x53 :: u32Bytes s.length ++ s) else none
  | .vDate ms =>
    -- `BigInt(Math.floor(value.getTime() / 1000))`; `writeBigUInt64BE` throws
    -- outside [0, 2^64)
    if 0 ≤ Int.fdiv ms 1000 ∧ Int.fdiv ms 1000 < 2 ^ 64 then
      some (0x54 :: u64Bytes (Int.fdiv ms 1000).toNat)
    else none
  | .vBytes bs =>
    if bs.length < 2 ^ 32 then some (0x78 :: u32Bytes bs.length ++ bs) else none
  | .vArr vs =>
    (encodeItems vs).bind fun content =>
      if content.length < 2 ^ 32 then
        some (0x41 :: u32Bytes content.length ++ content)
      else none
  | .vTable t => (encodeFieldTable t).map fun tb => 0x46 :: tb
termination_by v => (sizeOf v, 0)

/-- The `value.map(encodeFieldValue)` + `Buffer.concat` part of the array case. -/
def encodeItems : List FieldValue → Option (List Nat)
  | [] => some []
  | v :: vs =>
    (encodeFieldValue v).bind fun b => (encodeItems vs).map fun r => b ++ r
termination_by vs => (sizeOf vs, 0)

/-- The `Object.entries` loop of `encodeFieldTable` (keys in insertion order). -/
def encodePairs : List (List Nat × FieldValue) → Option (List Nat)
  | [] => some []
  | (k, v) :: t =>
    (encodeShortString k).bind fun kb =>
      (encodeFieldValue v).bind fun vb =>
        (encodePairs t).map fun r => kb ++ vb ++ r
termination_by t => (sizeOf t, 0)

/-- `FrameBuilder.encodeFieldTable`: 4-byte length prefix + key/value pairs. -/
def encodeFieldTable (t : List (List Nat × FieldValue)) : Option (List Nat) :=
  (encodePairs t).bind fun content =>
    if content.length < 2 ^ 32 then some (u32Bytes content.length ++ content)
    else none
termination_by (sizeOf t, 1)

end

/-! ### Decoder

`FrameParser.readFieldValue` works on `(buffer, offset)` and returns
`{value, bytesRead}`; the embedding works on the byte-list suffix at the
offset and returns `(value, bytesRead)`.  Node buffer reads of fixed-width
numbers throw past the end (`none`); `toString`/`subarray` silently clamp
(modeled by `take`).  `bytesRead` is packaged with a proof that it is at
least 1 (the tag byte), which the nested loops need for termination. -/

/-- The non-recursive arms of the `readFieldValue` `switch`: every tag except
the nested `A` (array) and `F` (table) ones.  Tag tests appear in the order of
the source `switch`.  The IEEE-754 tags `f` (0x66), `d` (0x64) and `D` (0x44)
are outside the integer byte model and map to `none`; an unknown tag throws in
the source (`none`). -/
def readSimpleValue (tag : Nat) (rest : List Nat) :
    Option (FieldValue × {n : Nat // 1 ≤ n}) :=
  if tag = 0x74 then -- 't' boolean
    match rest with
    | b :: _ => some (.vBool (b != 0), ⟨2, by omega⟩)
    | [] => none
  else if tag = 0x62 then -- 'b' signed byte
    match rest with
    | b :: _ =>
      some (.vNum (if b < 128 then (b : Int) else (b : Int) - 256), ⟨2, by omega⟩)
    | [] => none
  else if tag = 0x42 then -- 'B' unsigned byte
    match rest with
    | b :: _ => some (.vNum b, ⟨2, by omega⟩)
    | [] => none
  else if tag = 0x73 then -- 's' signed short
    match rest with
    | b0 :: b1 :: _ =>
      let u : Nat := b0 * 2 ^ 8 + b1
      some (.vNum (if u < 2 ^ 15 then (u : Int) else (u : Int) - 2 ^ 16), ⟨3, by omega⟩)
    | _ => none
  else if tag = 0x75 then -- 'u' unsigned short
    match rest with
    | b0 :: b1 :: _ => some (.vNum (b0 * 2 ^ 8 + b1), ⟨3, by omega⟩)
    | _ => none
  else if tag = 0x49 then -- 'I' signed int
    match rest with
    | b0 :: b1 :: b2 :: b3 :: _ =>
      let u : Nat := b0 * 2 ^ 24 + b1 * 2 ^ 16 + b2 * 2 ^ 8 + b3
      some (.vNum (if u < 2 ^ 31 then (u : Int) else (u : Int) - 2 ^ 32), ⟨5, by omega⟩)
    | _ => none
  else if tag = 0x69 then -- 'i' unsigned int
    match rest with
    | b0 :: b1 :: b2 :: b3 :: _ =>
      some (.vNum (b0 * 2 ^ 24 + b1 * 2 ^ 16 + b2 * 2 ^ 8 + b3), ⟨5, by omega⟩)
    | _ => none
  else if tag = 0x6c then -- 'l' signed long
    match rest with
    | b0 :: b1 :: b2 :: b3 :: b4 :: b5 :: b6 :: b7 :: _ =>
      let u : Nat := b0 * 2 ^ 56 + b1 * 2 ^ 48 + b2 * 2 ^ 40 + b3 * 2 ^ 32 +
               b4 * 2 ^ 24 + b5 * 2 ^ 16 + b6 * 2 ^ 8 + b7
      some (.vBig (if u < 2 ^ 63 then (u : Int) else (u : Int) - 2 ^ 64), ⟨9, by omega⟩)
    | _ => none
  else if tag = 0x66 then none -- 'f' float32: unmodelled IEEE-754 read
  else if tag = 0x64 then none -- 'd' float64: unmodelled IEEE-754 read
  else if tag = 0x44 then none -- 'D' decimal: unmodelled float arithmetic
  else if tag = 0x53 then -- 'S' long string
    match rest with
    | b0 :: b1 :: b2 :: b3 :: r =>
      let len := b0 * 2 ^ 24 + b1 * 2 ^ 16 + b2 * 2 ^ 8 + b3
      some (.vStr (r.take len), ⟨1 + (4 + len), by omega⟩)
    | _ => none
  else if tag = 0x54 then -- 'T' timestamp: seconds → `new Date(s * 1000)`
    match rest with
    | b0 :: b1 :: b2 :: b3 :: b4 :: b5 :: b6 :: b7 :: _ =>
      let k : Nat := b0 * 2 ^ 56 + b1 * 2 ^ 48 + b2 * 2 ^ 40 + b3 * 2 ^ 32 +
               b4 * 2 ^ 24 + b5 * 2 ^ 16 + b6 * 2 ^ 8 + b7
      some (.vDate ((k : Int) * 1000), ⟨9, by omega⟩)
    | _ => none
  else if tag = 0x56 then -- 'V' void/null
    some (.vNull, ⟨1, by omega⟩)
  else if tag = 0x78 then -- 'x' byte array
    match rest with
    | b0 :: b1 :: b2 :: b3 :: r =>
      let len := b0 * 2 ^ 24 + b1 * 2 ^ 16 + b2 * 2 ^ 8 + b3
      some (.vBytes (r.take len), ⟨1 + 4 + len, by omega⟩)
    | _ => none
  else none

mutual

/-- `FrameParser.readFieldValue`: a tag byte then the tagged payload.  The
nested-container tags (`A`, `F`) are dispatched here so the recursion is
visible to the termination checker; every other tag is handled by
`readSimpleValue` (all tags are distinct, so the test order is immaterial). -/
def readFieldValue : List Nat → Option (FieldValue × {n : Nat // 1 ≤ n})
  | [] => none
  | tag :: rest =>
    if tag = 0x41 then -- 'A' array
      match rest with
      | b0 :: b1 :: b2 :: b3 :: r =>
        let len := b0 * 2 ^ 24 + b1 * 2 ^ 16 + b2 * 2 ^ 8 + b3
        (readItems r len).map fun vs => (.vArr vs, ⟨1 + 4 + len, by omega⟩)
      | _ => none
    else if tag = 0x46 then -- 'F' nested table
      match rest with
      | b0 :: b1 :: b2 :: b3 :: r =>
        let len := b0 * 2 ^ 24 + b1 * 2 ^ 16 + b2 * 2 ^ 8 + b3
        (readPairs r len).map fun t => (.vTable t, ⟨1 + (4 + len), by omega⟩)
      | _ => none
    else readSimpleValue tag rest
termination_by bytes => 2 * bytes.length

/-- The `while (arrayPos < arrayEnd)` loop of the array case; the second
argument is the remaining byte budget inside the declared array length. -/
def readItems : List Nat → Nat → Option (List FieldValue)
  | _, 0 => some []
  | [], _ + 1 => none
  | b :: r, budget + 1 =>
    (readFieldValue (b :: r)).bind fun p =>
      (readItems ((b :: r).drop p.2.1) (budget + 1 - p.2.1)).map fun vs => p.1 :: vs
termination_by bytes _ => 2 * bytes.length + 1
decreasing_by
  all_goals simp_wf
  all_goals (try have h := p.2.2)
  all_goals (try simp [List.length_drop])
  all_goals omega

/-- The `while (pos < endPos)` loop of `FrameParser.readFieldTable`: a
short-string key then a value, within the declared table byte length. -/
def readPairs : List Nat → Nat → Option (List (List Nat × FieldValue))
  | _, 0 => some []
  | [], _ + 1 => none
  | len :: r, budget + 1 =>
    let key := r.take len
    (readFieldValue (r.drop len)).bind fun p =>
      (readPairs ((r.drop len).drop p.2.1) (budget + 1 - (1 + len + p.2.1))).map
        fun t => (key, p.1) :: t
termination_by bytes _ => 2 * bytes.length + 1
decreasing_by
  all_goals simp_wf
  all_goals omega

end

/-- `readFieldValue` with the plain `bytesRead`. -/
def readValue (bytes : List Nat) : Option (FieldValue × Nat) :=
  (readFieldValue bytes).map fun p => (p.1, p.2.1)

/-- `FrameParser.readFieldTable(buffer, 0)`: 4-byte byte-length prefix then
key/value pairs; returns the table and `bytesRead`. -/
def readTable (bytes : List Nat) : Option (List (List Nat × FieldValue) × Nat) :=
  match bytes with
  | b0 :: b1 :: b2 :: b3 :: r =>
    let len := b0 * 2 ^ 24 + b1 * 2 ^ 16 + b2 * 2 ^ 8 + b3
    (readPairs r len).map fun t => (t, 4 + len)
  | _ => none

/-! Whole-second timestamps: the well-formedness condition under which the
codec round-trips (`Math.floor(ms / 1000)` discards sub-second precision). -/

mutual

/-- Every `vDate` in the value sits on a whole-second boundary. -/
def wholeSecs : FieldValue → Bool
  | .vDate ms => ms % 1000 == 0
  | .vArr vs => wholeSecsList vs
  | .vTable t => wholeSecsPairs t
  | _ => true

/-- `wholeSecs` over array elements. -/
def wholeSecsList : List FieldValue → Bool
  | [] => true
  | v :: vs => wholeSecs v && wholeSecsList vs

/-- `wholeSecs` over table values. -/
def wholeSecsPairs : List (List Nat × FieldValue) → Bool
  | [] => true
  | (_, v) :: t => wholeSecs v && wholeSecsPairs t

end

/-! ### Codec round trip

For every encodable value whose timestamps sit on whole-second boundaries,
decoding the encoding (followed by arbitrary trailing bytes) returns the value
and consumes exactly the encoding. -/

/-- On every non-container tag the dispatcher reduces to `readSimpleValue`. -/
theorem readFieldValue_simple (tag : Nat) (rest : List Nat)
    (h1 : tag ≠ 0x41) (h2 : tag ≠ 0x46) :
    readFieldValue (tag :: rest) = readSimpleValue tag rest := by
  rw [readFieldValue.eq_def]
  simp [h1, h2]

/-! Per-tag evaluation lemmas for the decoder, stated over abstract payload
bytes so that instances rewrite cheaply. -/

theorem readV_bool (b : Nat) (r : List Nat) :
    readFieldValue (0x74 :: b :: r) = some (.vBool (b != 0), ⟨2, by omega⟩) := by
  rw [readFieldValue_simple _ _ (by norm_num) (by norm_num)]
  simp only [readSimpleValue]
  norm_num

theorem readV_i8 (b : Nat) (r : List Nat) :
    readFieldValue (0x62 :: b :: r)
      = some (.vNum (if b < 128 then (b : Int) else (b : Int) - 256), ⟨2, by omega⟩) := by
  rw [readFieldValue_simple _ _ (by norm_num) (by norm_num)]
  simp only [readSimpleValue]
  norm_num

theorem readV_u8 (b : Nat) (r : List Nat) :
    readFieldValue (0x42 :: b :: r) = some (.vNum b, ⟨2, by omega⟩) := by
  rw [readFieldValue_simple _ _ (by norm_num) (by norm_num)]
  simp only [readSimpleValue]
  norm_num

theorem readV_i16 (b0 b1 : Nat) (r : List Nat) :
    readFieldValue (0x73 :: b0 :: b1 :: r)
      = some (.vNum (if b0 * 2 ^ 8 + b1 < 2 ^ 15 then ((b0 * 2 ^ 8 + b1 : Nat) : Int)
          else ((b0 * 2 ^ 8 + b1 : Nat) : Int) - 2 ^ 16), ⟨3, by omega⟩) := by
  rw [readFieldValue_simple _ _ (by norm_num) (by norm_num)]
  simp only [readSimpleValue]
  norm_num

theorem readV_i32 (b0 b1 b2 b3 : Nat) (r : List Nat) :
    readFieldValue (0x49 :: b0 :: b1 :: b2 :: b3 :: r)
      = some (.vNum (if b0 * 2 ^ 24 + b1 * 2 ^ 16 + b2 * 2 ^ 8 + b3 < 2 ^ 31
          then ((b0 * 2 ^ 24 + b1 * 2 ^ 16 + b2 * 2 ^ 8 + b3 : Nat) : Int)
          else ((b0 * 2 ^ 24 + b1 * 2 ^ 16 + b2 * 2 ^ 8 + b3 : Nat) : Int) - 2 ^ 32),
          ⟨5, by omega⟩) := by
  rw [readFieldValue_simple _ _ (by norm_num) (by norm_num)]
  simp only [readSimpleValue]
  norm_num

theorem readV_i64 (b0 b1 b2 b3 b4 b5 b6 b7 : Nat) (r : List Nat) :
    readFieldValue (0x6c :: b0 :: b1 :: b2 :: b3 :: b4 :: b5 :: b6 :: b7 :: r)
      = some (.vBig
          (if b0 * 2 ^ 56 + b1 * 2 ^ 48 + b2 * 2 ^ 40 + b3 * 2 ^ 32 +
              b4 * 2 ^ 24 + b5 * 2 ^ 16 + b6 * 2 ^ 8 + b7 < 2 ^ 63
          then ((b0 * 2 ^ 56 + b1 * 2 ^ 48 + b2 * 2 ^ 40 + b3 * 2 ^ 32 +
              b4 * 2 ^ 24 + b5 * 2 ^ 16 + b6 * 2 ^ 8 + b7 : Nat) : Int)
          else ((b0 * 2 ^ 56 + b1 * 2 ^ 48 + b2 * 2 ^ 40 + b3 * 2 ^ 32 +
              b4 * 2 ^ 24 + b5 * 2 ^ 16 + b6 * 2 ^ 8 + b7 : Nat) : Int) - 2 ^ 64),
          ⟨9, by omega⟩) := by
  rw [readFieldValue_simple _ _ (by norm_num) (by norm_num)]
  simp only [readSimpleValue]
  norm_num

theorem readV_str (b0 b1 b2 b3 : Nat) (r : List Nat) :
    readFieldValue (0x53 :: b0 :: b1 :: b2 :: b3 :: r)
      = some (.vStr (r.take (b0 * 2 ^ 24 + b1 * 2 ^ 16 + b2 * 2 ^ 8 + b3)),
          ⟨1 + (4 + (b0 * 2 ^ 24 + b1 * 2 ^ 16 + b2 * 2 ^ 8 + b3)), by omega⟩) := by
  rw [readFieldValue_simple _ _ (by norm_num) (by norm_num)]
  simp only [readSimpleValue]
  norm_num

theorem readV_bytes (b0 b1 b2 b3 : Nat) (r : List Nat) :
    readFieldValue (0x78 :: b0 :: b1 :: b2 :: b3 :: r)
      = some (.vBytes (r.take (b0 * 2 ^ 24 + b1 * 2 ^ 16 + b2 * 2 ^ 8 + b3)),
          ⟨1 + 4 + (b0 * 2 ^ 24 + b1 * 2 ^ 16 + b2 * 2 ^ 8 + b3), by omega⟩) := by
  rw [readFieldValue_simple _ _ (by norm_num) (by norm_num)]
  simp only [readSimpleValue]
  norm_num

theorem readV_date (b0 b1 b2 b3 b4 b5 b6 b7 : Nat) (r : List Nat) :
    readFieldValue (0x54 :: b0 :: b1 :: b2 :: b3 :: b4 :: b5 :: b6 :: b7 :: r)
      = some (.vDate (((b0 * 2 ^ 56 + b1 * 2 ^ 48 + b2 * 2 ^ 40 + b3 * 2 ^ 32 +
          b4 * 2 ^ 24 + b5 * 2 ^ 16 + b6 * 2 ^ 8 + b7 : Nat) : Int) * 1000),
          ⟨9, by omega⟩) := by
  rw [readFieldValue_simple _ _ (by norm_num) (by norm_num)]
  simp only [readSimpleValue]
  norm_num

theorem readV_null (r : List Nat) :
    readFieldValue (0x56 :: r) = some (.vNull, ⟨1, by omega⟩) := by
  rw [readFieldValue_simple _ _ (by norm_num) (by norm_num)]
  simp [readSimpleValue]

theorem readV_arr (b0 b1 b2 b3 : Nat) (r : List Nat) :
    readFieldValue (0x41 :: b0 :: b1 :: b2 :: b3 :: r)
      = (readItems r (b0 * 2 ^ 24 + b1 * 2 ^ 16 + b2 * 2 ^ 8 + b3)).map
          fun vs => (.vArr vs,
            ⟨1 + 4 + (b0 * 2 ^ 24 + b1 * 2 ^ 16 + b2 * 2 ^ 8 + b3), by omega⟩) := by
  rw [readFieldValue.eq_def]
  norm_num

theorem readV_table (b0 b1 b2 b3 : Nat) (r : List Nat) :
    readFieldValue (0x46 :: b0 :: b1 :: b2 :: b3 :: r)
      = (readPairs r (b0 * 2 ^ 24 + b1 * 2 ^ 16 + b2 * 2 ^ 8 + b3)).map
          fun t => (.vTable t,
            ⟨1 + (4 + (b0 * 2 ^ 24 + b1 * 2 ^ 16 + b2 * 2 ^ 8 + b3)), by omega⟩) := by
  rw [readFieldValue.eq_def]
  norm_num

mutual

/-- Round trip for a single field value. -/
theorem encDecValue : ∀ (v : FieldValue) (b : List Nat), wholeSecs v = true →
    encodeFieldValue v = some b → ∀ rest : List Nat,
    ∃ h : 1 ≤ b.length, readFieldValue (b ++ rest) = some (v, ⟨b.length, h⟩)
  | .vNull, b, hw, he, rest => by
    simp only [encodeFieldValue, Option.some.injEq] at he
    subst he
    refine ⟨by simp, ?_⟩
    simp only [List.cons_append, List.nil_append]
    rw [readV_null]
    simp
  | .vBool x, b, hw, he, rest => by
    simp only [encodeFieldValue, Option.some.injEq] at he
    subst he
    refine ⟨by simp, ?_⟩
    simp only [List.cons_append, List.nil_append]
    rw [readV_bool]
    cases x <;> simp
  | .vNum x, b, hw, he, rest => by
    simp only [encodeFieldValue] at he
    split at he
    · rename_i h1
      simp only [Option.some.injEq] at he
      subst he
      refine ⟨by simp [i8Bytes], ?_⟩
      simp only [i8Bytes, List.cons_append, List.nil_append]
      rw [readV_i8]
      simp only [Option.some.injEq, Prod.mk.injEq, Subtype.mk.injEq,
        FieldValue.vNum.injEq]
      refine ⟨?_, by simp⟩
      split <;> omega
    · split at he
      · rename_i h1 h2
        simp only [Option.some.injEq] at he
        subst he
        refine ⟨by simp [i16Bytes, u16Bytes], ?_⟩
        simp only [i16Bytes, u16Bytes, List.cons_append, List.nil_append]
        rw [readV_i16]
        simp only [Option.some.injEq, Prod.mk.injEq, Subtype.mk.injEq,
          FieldValue.vNum.injEq]
        refine ⟨?_, by simp⟩
        split <;> omega
      · split at he
        · rename_i h1 h2 h3
          simp only [Option.some.injEq] at he
          subst he
          refine ⟨by simp [i32Bytes, u32Bytes], ?_⟩
          simp only [i32Bytes, u32Bytes, List.cons_append, List.nil_append]
          rw [readV_i32]
          simp only [Option.some.injEq, Prod.mk.injEq, Subtype.mk.injEq,
            FieldValue.vNum.injEq]
          refine ⟨?_, by simp⟩
          split <;> omega
        · exact absurd he (by simp)
  | .vBig x, b, hw, he, rest => by
    simp only [encodeFieldValue] at he
    split at he
    · rename_i h1
      simp only [Option.some.injEq] at he
      subst he
      refine ⟨by simp [i64Bytes, u64Bytes], ?_⟩
      simp only [i64Bytes, u64Bytes, List.cons_append, List.nil_append]
      rw [readV_i64]
      simp only [Option.some.injEq, Prod.mk.injEq, Subtype.mk.injEq,
        FieldValue.vBig.injEq]
      refine ⟨?_, by simp⟩
      split <;> omega
    · exact absurd he (by simp)
  | .vStr s, b, hw, he, rest => by
    simp only [encodeFieldValue] at he
    split at he
    · rename_i hlen
      simp only [Option.some.injEq] at he
      subst he
      refine ⟨by simp, ?_⟩
      have hrec : s.length / 2 ^ 24 % 256 * 2 ^ 24 + s.length / 2 ^ 16 % 256 * 2 ^ 16 +
          s.length / 2 ^ 8 % 256 * 2 ^ 8 + s.length % 256 = s.length := by omega
      simp only [u32Bytes, List.cons_append, List.nil_append, List.append_assoc]
      rw [readV_str]
      simp only [hrec, List.take_left, Option.some.injEq, Prod.mk.injEq,
        Subtype.mk.injEq, FieldValue.vStr.injEq]
      refine ⟨trivial, by simp; try omega⟩
    · exact absurd he (by simp)
  | .vBytes s, b, hw, he, rest => by
    simp only [encodeFieldValue] at he
    split at he
    · rename_i hlen
      simp only [Option.some.injEq] at he
      subst he
      refine ⟨by simp, ?_⟩
      have hrec : s.length / 2 ^ 24 % 256 * 2 ^ 24 + s.length / 2 ^ 16 % 256 * 2 ^ 16 +
          s.length / 2 ^ 8 % 256 * 2 ^ 8 + s.length % 256 = s.length := by omega
      simp only [u32Bytes, List.cons_append, List.nil_append, List.append_assoc]
      rw [readV_bytes]
      simp only [hrec, List.take_left, Option.some.injEq, Prod.mk.injEq,
        Subtype.mk.injEq, FieldValue.vBytes.injEq]
      refine ⟨trivial, by simp; try omega⟩
    · exact absurd he (by simp)
  | .vDate ms, b, hw, he, rest => by
    simp only [encodeFieldValue] at he
    split at he
    · rename_i h1
      simp only [Option.some.injEq] at he
      subst he
      simp only [wholeSecs, beq_iff_eq] at hw
      refine ⟨by simp [u64Bytes], ?_⟩
      simp only [u64Bytes, List.cons_append, List.nil_append]
      rw [readV_date]
      simp only [Option.some.injEq, Prod.mk.injEq, Subtype.mk.injEq,
        FieldValue.vDate.injEq]
      refine ⟨?_, by simp⟩
      simp only [Int.fdiv_eq_ediv _ (by norm_num : (0:Int) ≤ 1000)] at h1 ⊢
      omega
    · exact absurd he (by simp)
  | .vArr vs, b, hw, he, rest => by
    simp only [encodeFieldValue, Option.bind_eq_some] at he
    obtain ⟨content, hc, hif⟩ := he
    split at hif
    · rename_i hlen
      simp only [Option.some.injEq] at hif
      subst hif
      simp only [wholeSecs] at hw
      have hitems := encDecItems vs content hw hc rest
      refine ⟨by simp, ?_⟩
      have hrec : content.length / 2 ^ 24 % 256 * 2 ^ 24 +
          content.length / 2 ^ 16 % 256 * 2 ^ 16 +
          content.length / 2 ^ 8 % 256 * 2 ^ 8 + content.length % 256
          = content.length := by omega
      simp only [u32Bytes, List.cons_append, List.nil_append, List.append_assoc]
      rw [readV_arr]
      simp only [hrec, hitems, Option.map_some', Option.some.injEq, Prod.mk.injEq,
        Subtype.mk.injEq, FieldValue.vArr.injEq]
      refine ⟨trivial, by simp; try omega⟩
    · exact absurd hif (by simp)
  | .vTable t, b, hw, he, rest => by
    simp only [encodeFieldValue, Option.map_eq_some', encodeFieldTable,
      Option.bind_eq_some] at he
    obtain ⟨tb, ⟨content, hc, hif⟩, hcons⟩ := he
    split at hif
    · rename_i hlen
      simp only [Option.some.injEq] at hif
      subst hif
      subst hcons
      simp only [wholeSecs] at hw
      have hpairs := encDecPairs t content hw hc rest
      refine ⟨by simp, ?_⟩
      have hrec : content.length / 2 ^ 24 % 256 * 2 ^ 24 +
          content.length / 2 ^ 16 % 256 * 2 ^ 16 +
          content.length / 2 ^ 8 % 256 * 2 ^ 8 + content.length % 256
          = content.length := by omega
      simp only [u32Bytes, List.cons_append, List.nil_append, List.append_assoc]
      rw [readV_table]
      simp only [hrec, hpairs, Option.map_some', Option.some.injEq, Prod.mk.injEq,
        Subtype.mk.injEq, FieldValue.vTable.injEq]
      refine ⟨trivial, by simp; try omega⟩
    · exact absurd hif (by simp)
termination_by v => sizeOf v

/-- Round trip for the encoded concatenation of array elements. -/
theorem encDecItems : ∀ (vs : List FieldValue) (b : List Nat),
    wholeSecsList vs = true → encodeItems vs = some b → ∀ rest : List Nat,
    readItems (b ++ rest) b.length = some vs
  | [], b, hw, he, rest => by
    simp only [encodeItems, Option.some.injEq] at he
    subst he
    rw [readItems.eq_def]
    simp
  | v :: vs, b, hw, he, rest => by
    simp only [encodeItems, Option.bind_eq_some, Option.map_eq_some'] at he
    obtain ⟨bv, hbv, br, hbr, hb⟩ := he
    subst hb
    simp only [wholeSecsList, Bool.and_eq_true] at hw
    obtain ⟨hpos, hread⟩ := encDecValue v bv hw.1 hbv (br ++ rest)
    have hrec := encDecItems vs br hw.2 hbr rest
    obtain ⟨hd, tl, hbv_shape⟩ := List.exists_cons_of_ne_nil
      (List.ne_nil_of_length_pos (by omega) : bv ≠ [])
    subst hbv_shape
    have h1 : ((hd :: tl) ++ br) ++ rest = hd :: (tl ++ (br ++ rest)) := by simp
    have h2 : ((hd :: tl) ++ br).length = (tl.length + br.length) + 1 := by
      simp; try omega
    rw [h1, h2, readItems.eq_def]
    simp only []
    have h3 : hd :: (tl ++ (br ++ rest)) = (hd :: tl) ++ (br ++ rest) := by simp
    rw [h3, hread]
    simp only [Option.some_bind]
    have h4 : ((hd :: tl) ++ (br ++ rest)).drop ((hd :: tl).length) = br ++ rest :=
      List.drop_left _ _
    simp only [List.length_cons] at h4 hread ⊢
    rw [h4]
    have h5 : tl.length + br.length + 1 - (tl.length + 1) = br.length := by omega
    rw [h5, hrec]
    simp
termination_by vs => sizeOf vs

/-- Round trip for the encoded concatenation of table pairs. -/
theorem encDecPairs : ∀ (t : List (List Nat × FieldValue)) (b : List Nat),
    wholeSecsPairs t = true → encodePairs t = some b → ∀ rest : List Nat,
    readPairs (b ++ rest) b.length = some t
  | [], b, hw, he, rest => by
    simp only [encodePairs, Option.some.injEq] at he
    subst he
    rw [readPairs.eq_def]
    simp
  | (k, v) :: t, b, hw, he, rest => by
    simp only [encodePairs, encodeShortString, Option.bind_eq_some,
      Option.map_eq_some'] at he
    obtain ⟨kb, hkb, vb, hvb, bt, hbt, hb⟩ := he
    split at hkb
    · rename_i hklen
      simp only [Option.some.injEq] at hkb
      subst hkb
      subst hb
      simp only [wholeSecsPairs, Bool.and_eq_true] at hw
      obtain ⟨hpos, hread⟩ := encDecValue v vb hw.1 hvb (bt ++ rest)
      have hrec := encDecPairs t bt hw.2 hbt rest
      have h1 : (((k.length :: k) ++ vb ++ bt) ++ rest)
          = k.length :: (k ++ (vb ++ (bt ++ rest))) := by simp
      have h2 : ((k.length :: k) ++ vb ++ bt).length
          = (k.length + vb.length + bt.length) + 1 := by simp; try omega
      rw [h1, h2, readPairs.eq_def]
      simp only []
      have h3 : (k ++ (vb ++ (bt ++ rest))).take k.length = k := List.take_left _ _
      have h4 : (k ++ (vb ++ (bt ++ rest))).drop k.length = vb ++ (bt ++ rest) :=
        List.drop_left _ _
      rw [h3, h4, hread]
      simp only [Option.some_bind]
      have h5 : (vb ++ (bt ++ rest)).drop vb.length = bt ++ rest := List.drop_left _ _
      rw [h5]
      have h6 : k.length + vb.length + bt.length + 1 - (1 + k.length + vb.length)
          = bt.length := by omega
      rw [h6, hrec]
      simp
    · exact absurd hkb (by simp)
termination_by t => sizeOf t

end

/-- `FrameParser.readFieldTable(FrameBuilder.encodeFieldTable(t), 0)` returns
`t` itself (with `bytesRead` the full encoding) whenever the table encodes and
its timestamps are whole seconds. -/
theorem fieldTable_roundTrip (t : List (List Nat × FieldValue)) (b : List Nat)
    (hw : wholeSecsPairs t = true) (he : encodeFieldTable t = some b) :
    readTable b = some (t, b.length) := by
  simp only [encodeFieldTable, Option.bind_eq_some] at he
  obtain ⟨content, hc, hif⟩ := he
  split at hif
  · rename_i hlen
    simp only [Option.some.injEq] at hif
    subst hif
    have hp := encDecPairs t content hw hc []
    simp only [List.append_nil] at hp
    have hrec : content.length / 2 ^ 24 % 256 * 2 ^ 24 +
        content.length / 2 ^ 16 % 256 * 2 ^ 16 +
        content.length / 2 ^ 8 % 256 * 2 ^ 8 + content.length % 256
        = content.length := by omega
    simp only [readTable, u32Bytes, List.cons_append, List.nil_append]
    simp only [hrec, hp, Option.map_some', Option.some.injEq, Prod.mk.injEq]
    refine ⟨trivial, by simp; try omega⟩
  · exact absurd hif (by simp)

/-! ## Core entities (src/core and src/protocol/types)

`MessageProperties` carries the AMQP Basic property bag.  The `headers`
property (a nested field table) is never consulted by any code path a claim
touches and is omitted so that structural equality stays derivable. -/

/-- AMQP Basic content properties (src/protocol/types, `MessageProperties`). -/
structure MessageProperties where
  contentType : Option String := none
  contentEncoding : Option String := none
  deliveryMode : Option Nat := none
  priority : Option Nat := none
  correlationId : Option String := none
  replyTo : Option String := none
  expiration : Option String := none
  messageId : Option String := none
  timestamp : Option Nat := none
  msgType : Option String := none
  userId : Option String := none
  appId : Option String := none
  clusterId : Option String := none
deriving DecidableEq, Repr

/-- A published message (src/protocol/types `Message`). -/
structure Message where
  id : String
  exchange : String
  routingKey : String
  mandatory : Bool
  immediate : Bool
  properties : MessageProperties
  content : List Nat
  timestamp : Nat
deriving DecidableEq, Repr

/-- `createMessage` (src/core/message.ts).  `randomUUID()` and `Date.now()`
are nondeterministic inputs and are passed in as `freshId` / `now`;
`properties.messageId || randomUUID()` treats the empty string as falsy. -/
def createMessage (exchange routingKey : String) (content : List Nat)
    (properties : MessageProperties) (mandatory immediate : Bool)
    (freshId : String) (now : Nat) : Message :=
  { id := match properties.messageId with
          | some s => if s = "" then freshId else s
          | none => freshId
    exchange := exchange
    routingKey := routingKey
    mandatory := mandatory
    immediate := immediate
    properties := { properties with
                    timestamp := some (properties.timestamp.getD (now / 1000)) }
    content := content
    timestamp := now }

/-- An entry of a channel's unacked map (src/protocol/types `UnackedMessage`).
The wall-clock `deliveredAt` field is omitted (no claim consults it). -/
structure UnackedMessage where
  message : Message
  queueName : String
  deliveryTag : Nat
  consumerTag : String
deriving DecidableEq, Repr

/-- Channel state (src/protocol/types `ChannelState`). -/
inductive ChannelState where
  | opening
  | chOpen
  | closing
  | closed
deriving DecidableEq, Repr

/-- A consumer (src/core/consumer.ts `Consumer`).  The JS object holds a
reference to its owning channel; here `channelKey` is the owning channel's
synthetic identity (`Channel.key` below). -/
structure Consumer where
  consumerTag : String
  queueName : String
  noLocal : Bool
  noAck : Bool
  exclusive : Bool
  channelKey : Nat
deriving DecidableEq, Repr

/-- The message being assembled on a channel (src/core/channel.ts
`pendingMessage`; the `method` discriminator is always `'publish'` in the
broker).  Sizes are byte counts. -/
structure PendingMessage where
  exchange : String
  routingKey : String
  mandatory : Bool
  immediate : Bool
  properties : MessageProperties
  bodySize : Nat
  bodyChunks : List (List Nat)
  receivedSize : Nat
deriving DecidableEq, Repr

/-- A channel (src/core/channel.ts `Channel`).  `key` is a synthetic identity
standing for JS object identity; `connId` identifies the owning connection.
The JS `Map`s (`unackedMessages`, `consumers`) are insertion-ordered
association lists. -/
structure Channel where
  key : Nat
  connId : String
  channelNumber : Nat
  state : ChannelState
  flowActive : Bool
  prefetchSize : Nat
  prefetchCount : Nat
  qosGlobal : Bool
  deliveryTagCounter : Nat
  unackedMessages : List UnackedMessage
  consumers : List Consumer
  pendingMessage : Option PendingMessage
deriving DecidableEq, Repr

namespace Channel

/-- `Channel.canDeliver`. -/
def canDeliver (ch : Channel) : Bool :=
  if ch.prefetchCount = 0 then true -- no limit
  else ch.unackedMessages.length < ch.prefetchCount

/-- `Channel.nextDeliveryTag` (`++this.deliveryTagCounter`): the bumped
counter together with the new tag value. -/
def nextDeliveryTag (ch : Channel) : Channel × Nat :=
  ({ ch with deliveryTagCounter := ch.deliveryTagCounter + 1 },
   ch.deliveryTagCounter + 1)

/-- `Channel.trackUnacked` (`Map.set`): replaces in place when the tag is
already present, otherwise appends (delivery tags are unique in practice,
so the replace branch never fires). -/
def trackUnacked (ch : Channel) (deliveryTag : Nat) (message : Message)
    (queueName consumerTag : String) : Channel :=
  let entry : UnackedMessage :=
    { message := message, queueName := queueName,
      deliveryTag := deliveryTag, consumerTag := consumerTag }
  if ch.unackedMessages.any (fun u => u.deliveryTag = deliveryTag) then
    { ch with unackedMessages :=
        ch.unackedMessages.map fun u =>
          if u.deliveryTag = deliveryTag then entry else u }
  else
    { ch with unackedMessages := ch.unackedMessages ++ [entry] }

/-- `Channel.ack`: `multiple` removes every entry with tag ≤ `deliveryTag`
(in map order); otherwise `Map.delete` of the single keyed entry.  Returns
the removed entries and the updated channel. -/
def ack (ch : Channel) (deliveryTag : Nat) (multiple : Bool) :
    List UnackedMessage × Channel :=
  if multiple then
    (ch.unackedMessages.filter (fun u => u.deliveryTag ≤ deliveryTag),
     { ch with unackedMessages :=
         ch.unackedMessages.filter (fun u => ¬ u.deliveryTag ≤ deliveryTag) })
  else
    match ch.unackedMessages.find? (fun u => u.deliveryTag = deliveryTag) with
    | some u =>
      ([u], { ch with unackedMessages :=
          ch.unackedMessages.eraseP (fun v => v.deliveryTag = deliveryTag) })
    | none => ([], ch)

/-- `Channel.nack` — same as ack (the caller decides about requeue). -/
def nack (ch : Channel) (deliveryTag : Nat) (multiple : Bool) :
    List UnackedMessage × Channel :=
  ch.ack deliveryTag multiple

/-- `Channel.reject`: remove and return the single keyed entry, if any. -/
def reject (ch : Channel) (deliveryTag : Nat) :
    Option UnackedMessage × Channel :=
  match ch.unackedMessages.find? (fun u => u.deliveryTag = deliveryTag) with
  | some u =>
    (some u, { ch with unackedMessages :=
        ch.unackedMessages.eraseP (fun v => v.deliveryTag = deliveryTag) })
  | none => (none, ch)

/-- `Channel.getUnackedCount`. -/
def getUnackedCount (ch : Channel) : Nat := ch.unackedMessages.length

end Channel

/-- `Consumer.canReceive` (src/core/consumer.ts): flow active and within the
QoS window.  The owning channel is passed explicitly (`this.channel`). -/
def Consumer.canReceive (_c : Consumer) (ch : Channel) : Bool :=
  if ¬ ch.flowActive then false
  else ch.canDeliver

/-- A queue (src/core/queue.ts `Queue`).  `arguments` is carried opaquely in
the source and never consulted by a claim, so it is omitted. -/
structure Queue where
  name : String
  durable : Bool
  exclusive : Bool
  autoDelete : Bool
  exclusiveConnectionId : Option String
  messages : List Message
  consumerCount : Nat
deriving DecidableEq, Repr

namespace Queue

/-- `Queue.enqueue`. -/
def enqueue (q : Queue) (m : Message) : Queue :=
  { q with messages := q.messages ++ [m] }

/-- `Queue.dequeue` (`Array.shift`). -/
def dequeue (q : Queue) : Option Message × Queue :=
  match q.messages with
  | [] => (none, q)
  | m :: rest => (some m, { q with messages := rest })

/-- `Queue.requeue(message, front)`: `unshift` when `front`, `push` otherwise. -/
def requeue (q : Queue) (m : Message) (front : Bool) : Queue :=
  if front then { q with messages := m :: q.messages }
  else { q with messages := q.messages ++ [m] }

/-- `Queue.canAccess`: exclusive queues admit only their owning connection. -/
def canAccess (q : Queue) (connectionId : String) : Bool :=
  if ¬ q.exclusive then true
  else q.exclusiveConnectionId = some connectionId

/-- `Queue.matches` for declare: only fields present in the partial
definition are compared (the broker passes `durable` and `exclusive`). -/
def defMatches (q : Queue) (durable exclusive : Bool) : Bool :=
  q.durable = durable && q.exclusive = exclusive

/-- `Queue.addConsumer`. -/
def addConsumer (q : Queue) : Queue :=
  { q with consumerCount := q.consumerCount + 1 }

/-- `Queue.removeConsumer` (`Math.max(0, n - 1)`); the auto-delete event is
emitted but the broker registers no listener for it. -/
def removeConsumer (q : Queue) : Queue :=
  { q with consumerCount := q.consumerCount - 1 }

end Queue

/-- An exchange type (src/core/exchange.ts `ExchangeType`). -/
inductive ExchangeType where
  | direct
  | fanout
  | topic
  | headers
deriving DecidableEq, Repr

/-- An exchange (src/core/exchange.ts `Exchange`); `arguments` omitted as for
queues. -/
structure Exchange where
  name : String
  exType : ExchangeType
  durable : Bool
  autoDelete : Bool
  internal : Bool
  isDefault : Bool
deriving DecidableEq, Repr

/-- A binding (src/core/binding.ts `Binding`); `arguments` omitted. -/
structure Binding where
  source : String
  destination : String
  routingKey : String
deriving DecidableEq, Repr

/-! ## Routing (src/routing)

`matchDirect`, `matchFanout`, `matchTopic` and `MessageRouter.route`.
`[...new Set(xs)]` keeps first occurrences in order (`jsSetDedup`). -/

/-- `[...new Set(xs)]`: deduplicate keeping first occurrences. -/
def jsSetDedup : List String → List String
  | [] => []
  | x :: xs => x :: jsSetDedup (xs.filter (fun y => ¬ y = x))
termination_by l => l.length
decreasing_by
  simp_wf
  have := List.length_filter_le (fun y => ! decide (y = w)) ws
  omega

/-- `matchDirect` (src/routing/direct-exchange.ts): no deduplication. -/
def matchDirect (routingKey : String) (bindings : List Binding) : List String :=
  (bindings.filter (fun b => b.routingKey = routingKey)).map (fun b => b.destination)

/-- `matchFanout` (src/routing/fanout-exchange.ts). -/
def matchFanout (bindings : List Binding) : List String :=
  jsSetDedup (bindings.map (fun b => b.destination))

/-- `matchTopic` (src/routing/topic-exchange.ts). -/
def matchTopic (routingKey : String) (bindings : List Binding) : List String :=
  jsSetDedup ((bindings.filter (fun b => matchesPattern routingKey b.routingKey)).map
    (fun b => b.destination))

/-- Look a queue up by name (`Map.get` on the broker's queue table, which is
keyed by queue name). -/
def findQueue (qs : List Queue) (name : String) : Option Queue :=
  qs.find? (fun q => q.name = name)

/-- `MessageRouter.matchBindings`. -/
def matchBindings (t : ExchangeType) (routingKey : String)
    (bindings : List Binding) : List String :=
  match t with
  | .direct => matchDirect routingKey bindings
  | .fanout => matchFanout bindings
  | .topic => matchTopic routingKey bindings
  | .headers => []  -- headers routing not implemented

/-- `MessageRouter.route`: default exchange by queue name, otherwise match
the exchange's bindings and resolve existing queues. -/
def route (exchanges : List Exchange) (qs : List Queue) (bindings : List Binding)
    (msg : Message) : List Queue :=
  if msg.exchange = "" then
    match findQueue qs msg.routingKey with
    | some q => [q]
    | none => []
  else
    match exchanges.find? (fun e => e.name = msg.exchange) with
    | none => []
    | some ex =>
      let ebs := bindings.filter (fun b => b.source = msg.exchange)
      (matchBindings ex.exType msg.routingKey ebs).filterMap (findQueue qs)

/-! ## Broker state and handlers (src/server.ts)

The broker's observable actions are modelled explicitly: `Output` is a frame
sent to a client (at the method level, mirroring the `FrameBuilder` call and
its arguments), `StoreOp` a persistence call on the message store.  Handlers
are functions from broker state to broker state plus emitted outputs/ops.
`setImmediate`-deferred work (the redelivery retries in the reject/nack
handlers and the self-retrigger at the end of `deliverToConsumer`) is a
separately scheduled invocation of `deliverToConsumer` and is not part of a
handler's synchronous effect; direct calls (in the ack, recover and consume
handlers) are. -/

/-- Reply codes (src/protocol/constants.ts `REPLY_CODE`). -/
def NO_CONSUMERS : Nat := 313
def ACCESS_REFUSED : Nat := 403
def NOT_FOUND : Nat := 404
def RESOURCE_LOCKED : Nat := 405
def PRECONDITION_FAILED : Nat := 406
def CHANNEL_ERROR : Nat := 504

/-- Broker defaults (src/protocol/constants.ts). -/
def DEFAULT_CHANNEL_MAX : Nat := 2047
def DEFAULT_FRAME_MAX : Nat := 131072
def DEFAULT_HEARTBEAT : Nat := 60

/-- A frame sent to a client, at method granularity. -/
inductive Output where
  | basicDeliver (channel : Nat) (consumerTag : String) (deliveryTag : Nat)
      (redelivered : Bool) (exchange routingKey : String)
  | contentHeader (channel bodySize : Nat) (properties : MessageProperties)
  | contentBody (channel : Nat) (chunk : List Nat)
  | basicReturn (channel replyCode : Nat) (replyText exchange routingKey : String)
  | basicGetOk (channel deliveryTag : Nat) (redelivered : Bool)
      (exchange routingKey : String) (messageCount : Nat)
  | basicGetEmpty (channel : Nat)
  | basicConsumeOk (channel : Nat) (consumerTag : String)
  | basicRecoverOk (channel : Nat)
  | queueDeclareOk (channel : Nat) (queue : String) (messageCount consumerCount : Nat)
  | channelCloseErr (channel replyCode : Nat) (replyText : String)
deriving DecidableEq, Repr

/-- A persistence call on the message store. -/
inductive StoreOp where
  | saveMessage (queue : String) (m : Message)
  | deleteMessage (queue messageId : String)
  | saveQueue (queue : String)
  | saveBinding (b : Binding)
deriving DecidableEq, Repr

/-- `FrameBuilder.buildContentBodyFrames`: split the body into chunks of at
most `frameMax - 8` bytes.  (For `frameMax ≤ 8` the source loop would not
terminate; that is unreachable for negotiated values and modelled as `[]`.) -/
def splitChunks (body : List Nat) (maxSize : Nat) : List (List Nat) :=
  if maxSize = 0 then []
  else if body.isEmpty then []
  else body.take maxSize :: splitChunks (body.drop maxSize) maxSize
termination_by body.length
decreasing_by
  simp_wf
  rename_i h1 h2
  simp [List.isEmpty_iff] at h2
  have : body.length ≠ 0 := fun hl => h2 (List.eq_nil_of_length_eq_zero hl)
  omega

/-- `buildMessageFrames` (basic method handlers): content header then body
frames. -/
def messageFrames (channel : Nat) (content : List Nat)
    (properties : MessageProperties) (frameMax : Nat) : List Output :=
  Output.contentHeader channel content.length properties
    :: (splitChunks content (frameMax - 8)).map (Output.contentBody channel)

/-- The full broker state touched by the claims: entity tables plus every
live channel (channels live in their connections in the source; `Channel.key`
is the object identity and `Channel.connId` the owning connection). -/
structure Broker where
  exchanges : List Exchange
  queues : List Queue
  bindings : List Binding
  consumers : List Consumer
  channels : List Channel
deriving DecidableEq, Repr

/-- Replace the queue with the given name (mutation of the `Map` entry). -/
def setQueue (st : Broker) (name : String) (f : Queue → Queue) : Broker :=
  { st with queues := st.queues.map fun q => if q.name = name then f q else q }

/-- Replace the channel with the given key (mutation of the JS object). -/
def setChannel (st : Broker) (key : Nat) (f : Channel → Channel) : Broker :=
  { st with channels := st.channels.map fun c => if c.key = key then f c else c }

/-- Look a channel up by key. -/
def findChannel (st : Broker) (key : Nat) : Option Channel :=
  st.channels.find? (fun c => c.key = key)

/-- `ConsumerRegistry.getByQueue`. -/
def consumersByQueue (st : Broker) (queueName : String) : List Consumer :=
  st.consumers.filter (fun c => c.queueName = queueName)

/-- The `for (const unacked of ...) { const queue = this.queues.get(...);
if (queue) queue.requeue(msg, front); }` loop shared by the recover handler
and `cleanupChannel`. -/
def requeueAll (front : Bool) (l : List UnackedMessage) (st : Broker) : Broker :=
  l.foldl
    (fun acc u =>
      match findQueue acc.queues u.queueName with
      | some _ => setQueue acc u.queueName (fun q => q.requeue u.message front)
      | none => acc)
    st

/-- The `for (const consumer of consumers) { const queue = ...; if (queue)
queue.removeConsumer(); }` loop of `cleanupChannel`. -/
def decrementConsumers (l : List Consumer) (st : Broker) : Broker :=
  l.foldl
    (fun acc c =>
      match findQueue acc.queues c.queueName with
      | some _ => setQueue acc c.queueName Queue.removeConsumer
      | none => acc)
    st

/-- `DeepMQBroker.deliverToConsumer`, acting on the consumer's channel and
the queue table: deliver the head message when `canReceive` holds, bump the
delivery tag, track the unacked entry unless `noAck`, emit the deliver and
content frames, and delete persisted state on auto-ack.  Returns the updated
channel and queues, outputs, store ops, and the dispatched tag/message (the
trailing `setImmediate` self-retrigger is a separate invocation). -/
def deliverToConsumer (c : Consumer) (ch : Channel) (qs : List Queue)
    (frameMax : Nat) :
    Channel × List Queue × List Output × List StoreOp × Option (Nat × Message) :=
  if ¬ c.canReceive ch then (ch, qs, [], [], none)
  else
    match findQueue qs c.queueName with
    | none => (ch, qs, [], [], none)
    | some q =>
      match q.messages with
      | [] => (ch, qs, [], [], none)
      | m :: restMsgs =>
        let qs := qs.map fun q2 =>
          if q2.name = c.queueName then { q2 with messages := restMsgs } else q2
        let (ch, deliveryTag) := ch.nextDeliveryTag
        let ch := if ¬ c.noAck then
            ch.trackUnacked deliveryTag m c.queueName c.consumerTag
          else ch
        let outs := Output.basicDeliver ch.channelNumber c.consumerTag deliveryTag
            false m.exchange m.routingKey
          :: messageFrames ch.channelNumber m.content m.properties frameMax
        let ops := if c.noAck ∧ q.durable then
            [StoreOp.deleteMessage c.queueName m.id]
          else []
        (ch, qs, outs, ops, some (deliveryTag, m))

/-- `deliverToConsumer` lifted to the broker state: resolve the consumer's
channel by identity, run the local step, write the channel back. -/
def deliverToConsumerB (st : Broker) (c : Consumer) (frameMax : Nat) :
    Broker × List Output × List StoreOp :=
  match findChannel st c.channelKey with
  | none => (st, [], [])
  | some ch =>
    let r := deliverToConsumer c ch st.queues frameMax
    let st := { st with queues := r.2.1 }
    let st := setChannel st c.channelKey (fun _ => r.1)
    (st, r.2.2.1, r.2.2.2.1)

/-! ## Basic-class method handlers (src/server.ts `handleBasicMethod`)

Every handler first resolves the channel and returns unchanged unless the
channel exists and is open (the `if (!channel || channel.state !== 'open')
return` guard at the top of `handleBasicMethod`).  Error reply texts are
modelled as fixed strings (the source interpolates entity names into them). -/

/-- `BASIC_METHOD.GET`: dequeue out-of-band; track an unacked entry with an
empty consumer tag unless `noAck`; no prefetch and no exclusive-access check
appears in this handler (and it receives no connection identity at all). -/
def handleBasicGet (st : Broker) (chKey : Nat) (queueName : String)
    (noAck : Bool) (frameMax : Nat) : Broker × List Output × List StoreOp :=
  match findChannel st chKey with
  | none => (st, [], [])
  | some ch =>
    if ch.state ≠ .chOpen then (st, [], [])
    else
      match findQueue st.queues queueName with
      | none =>
        (st, [Output.channelCloseErr ch.channelNumber NOT_FOUND "Queue not found"], [])
      | some q =>
        match q.messages with
        | [] => (st, [Output.basicGetEmpty ch.channelNumber], [])
        | m :: restMsgs =>
          let st := setQueue st queueName (fun q2 => { q2 with messages := restMsgs })
          let (ch2, deliveryTag) := ch.nextDeliveryTag
          let ch2 := if ¬ noAck then ch2.trackUnacked deliveryTag m queueName "" else ch2
          let st := setChannel st chKey (fun _ => ch2)
          let ops := if noAck ∧ q.durable then
              [StoreOp.deleteMessage queueName m.id] else []
          let outs := Output.basicGetOk ch.channelNumber deliveryTag false
              m.exchange m.routingKey restMsgs.length
            :: messageFrames ch.channelNumber m.content m.properties frameMax
          (st, outs, ops)

/-- The post-ack redelivery loop shared by the ack and recover handlers:
`for (const consumer of channel.getConsumers()) { const c =
this.consumers.get(...); if (c) this.deliverToConsumer(c); }` (direct,
synchronous calls). -/
def redeliverLoop (chConsumers : List Consumer) (frameMax : Nat)
    (start : Broker × List Output × List StoreOp) :
    Broker × List Output × List StoreOp :=
  chConsumers.foldl
    (fun acc cons =>
      match acc.1.consumers.find? (fun c => c.consumerTag = cons.consumerTag) with
      | some c =>
        let r := deliverToConsumerB acc.1 c frameMax
        (r.1, acc.2.1 ++ r.2.1, acc.2.2 ++ r.2.2)
      | none => acc)
    start

/-- `BASIC_METHOD.ACK`: remove the acknowledged entries, delete persisted
copies on durable queues, then synchronously retry delivery to each of the
channel's consumers. -/
def handleBasicAck (st : Broker) (chKey : Nat) (deliveryTag : Nat)
    (multiple : Bool) (frameMax : Nat) : Broker × List Output × List StoreOp :=
  match findChannel st chKey with
  | none => (st, [], [])
  | some ch =>
    if ch.state ≠ .chOpen then (st, [], [])
    else
      let r := ch.ack deliveryTag multiple
      let st := setChannel st chKey (fun _ => r.2)
      let ops := r.1.filterMap fun u =>
        match findQueue st.queues u.queueName with
        | some q =>
          if q.durable then some (StoreOp.deleteMessage u.queueName u.message.id)
          else none
        | none => none
      redeliverLoop ch.consumers frameMax (st, [], ops)

/-- `BASIC_METHOD.REJECT`: drop the single entry; requeue to the head or
delete the persisted copy.  The redelivery retries are `setImmediate`-deferred
and so not part of the synchronous effect. -/
def handleBasicReject (st : Broker) (chKey : Nat) (deliveryTag : Nat)
    (requeue : Bool) : Broker × List Output × List StoreOp :=
  match findChannel st chKey with
  | none => (st, [], [])
  | some ch =>
    if ch.state ≠ .chOpen then (st, [], [])
    else
      let r := ch.reject deliveryTag
      let st := setChannel st chKey (fun _ => r.2)
      match r.1 with
      | none => (st, [], [])
      | some u =>
        if requeue then
          match findQueue st.queues u.queueName with
          | some _ =>
            (setQueue st u.queueName (fun q => q.requeue u.message true), [], [])
          | none => (st, [], [])
        else
          match findQueue st.queues u.queueName with
          | some q =>
            if q.durable then
              (st, [], [StoreOp.deleteMessage u.queueName u.message.id])
            else (st, [], [])
          | none => (st, [], [])

/-- `BASIC_METHOD.NACK`: like reject with ack's multiple-semantics; requeues
go to the head, redelivery retries are `setImmediate`-deferred. -/
def handleBasicNack (st : Broker) (chKey : Nat) (deliveryTag : Nat)
    (multiple requeue : Bool) : Broker × List Output × List StoreOp :=
  match findChannel st chKey with
  | none => (st, [], [])
  | some ch =>
    if ch.state ≠ .chOpen then (st, [], [])
    else
      let r := ch.nack deliveryTag multiple
      let st := setChannel st chKey (fun _ => r.2)
      let folded := r.1.foldl
        (fun (acc : Broker × List StoreOp) u =>
          if requeue then
            match findQueue acc.1.queues u.queueName with
            | some _ =>
              (setQueue acc.1 u.queueName (fun q => q.requeue u.message true), acc.2)
            | none => acc
          else
            match findQueue acc.1.queues u.queueName with
            | some q =>
              if q.durable then
                (acc.1, acc.2 ++ [StoreOp.deleteMessage u.queueName u.message.id])
              else acc
            | none => acc)
        (st, [])
      (folded.1, [], folded.2)

/-- `BASIC_METHOD.RECOVER` / `RECOVER_ASYNC`: requeue every unacked message
with `front = !requeue`, clear the tracking by acking each snapshot tag,
reply Recover-Ok for the synchronous variant, then synchronously retry
delivery to the channel's consumers. -/
def handleBasicRecover (st : Broker) (chKey : Nat) (requeue sync : Bool)
    (frameMax : Nat) : Broker × List Output × List StoreOp :=
  match findChannel st chKey with
  | none => (st, [], [])
  | some ch =>
    if ch.state ≠ .chOpen then (st, [], [])
    else
      let unacked := ch.unackedMessages
      let st := requeueAll (!requeue) unacked st
      let ch2 := unacked.foldl (fun c u => (Channel.ack c u.deliveryTag false).2) ch
      let st := setChannel st chKey (fun _ => ch2)
      let outs := if sync then [Output.basicRecoverOk ch.channelNumber] else []
      redeliverLoop ch.consumers frameMax (st, outs, [])

/-- `BASIC_METHOD.CONSUME`: not-found and exclusive-access checks, exclusive
consumer conflict, registry/channel/queue bookkeeping, Consume-Ok unless
`noWait`, then one synchronous delivery attempt.  `generateConsumerTag()` is
passed in as `freshTag`. -/
def handleBasicConsume (st : Broker) (chKey : Nat) (connId : String)
    (queueName consumerTagArg : String) (noLocal noAck exclusive noWait : Bool)
    (freshTag : String) (frameMax : Nat) : Broker × List Output × List StoreOp :=
  match findChannel st chKey with
  | none => (st, [], [])
  | some ch =>
    if ch.state ≠ .chOpen then (st, [], [])
    else
      match findQueue st.queues queueName with
      | none =>
        (st, [Output.channelCloseErr ch.channelNumber NOT_FOUND "Queue not found"], [])
      | some q =>
        if ¬ q.canAccess connId then
          (st, [Output.channelCloseErr ch.channelNumber RESOURCE_LOCKED
              "Queue is exclusive to another connection"], [])
        else if exclusive ∧ (consumersByQueue st queueName).any (fun c => c.exclusive) then
          (st, [Output.channelCloseErr ch.channelNumber ACCESS_REFUSED
              "Queue has exclusive consumer"], [])
        else
          let tag := if consumerTagArg = "" then freshTag else consumerTagArg
          let consumer : Consumer :=
            { consumerTag := tag, queueName := queueName, noLocal := noLocal,
              noAck := noAck, exclusive := exclusive, channelKey := chKey }
          let st := { st with consumers := st.consumers ++ [consumer] }
          let st := setChannel st chKey
            (fun c => { c with consumers := c.consumers ++ [consumer] })
          let st := setQueue st queueName Queue.addConsumer
          let outs := if ¬ noWait then [Output.basicConsumeOk ch.channelNumber tag]
            else []
          let r := deliverToConsumerB st consumer frameMax
          (r.1, outs ++ r.2.1, r.2.2)

/-! ## Queue.Declare handler (src/server.ts `handleQueueMethod`) -/

/-- `BindingRegistry.add`: skip duplicates of the `(source, destination,
routingKey)` key. -/
def bindingAdd (st : Broker) (b : Binding) : Broker :=
  if st.bindings.any (fun b2 => b2 = b) then st
  else { st with bindings := st.bindings ++ [b] }

/-- `QUEUE_METHOD.DECLARE`: name generation (`freshName` stands for
`amq.gen-<uuid>`), passive/active branches, declaration-match and
exclusive-access checks, creation with auto-binding to the default exchange,
durable persistence, and Declare-Ok with the queue's counts. -/
def handleQueueDeclare (st : Broker) (chKey : Nat) (connId : String)
    (queueArg : String) (passive durable exclusive autoDelete noWait : Bool)
    (freshName : String) : Broker × List Output × List StoreOp :=
  match findChannel st chKey with
  | none => (st, [], [])
  | some ch =>
    if ch.state ≠ .chOpen then (st, [], [])
    else
      let queueName := if queueArg = "" then freshName else queueArg
      match findQueue st.queues queueName with
      | some existing =>
        if passive then
          if ¬ existing.canAccess connId then
            (st, [Output.channelCloseErr ch.channelNumber RESOURCE_LOCKED
                "Queue is exclusive to another connection"], [])
          else
            (st, if ¬ noWait then
                [Output.queueDeclareOk ch.channelNumber queueName
                  existing.messages.length existing.consumerCount]
              else [], [])
        else
          if ¬ existing.defMatches durable exclusive then
            (st, [Output.channelCloseErr ch.channelNumber PRECONDITION_FAILED
                "Queue declaration mismatch"], [])
          else if ¬ existing.canAccess connId then
            (st, [Output.channelCloseErr ch.channelNumber RESOURCE_LOCKED
                "Queue is exclusive to another connection"], [])
          else
            (st, if ¬ noWait then
                [Output.queueDeclareOk ch.channelNumber queueName
                  existing.messages.length existing.consumerCount]
              else [], [])
      | none =>
        if passive then
          (st, [Output.channelCloseErr ch.channelNumber NOT_FOUND
              "Queue not found"], [])
        else
          let q : Queue :=
            { name := queueName, durable := durable, exclusive := exclusive,
              autoDelete := autoDelete,
              exclusiveConnectionId := if exclusive then some connId else none,
              messages := [], consumerCount := 0 }
          let st := { st with queues := st.queues ++ [q] }
          let defaultBinding : Binding :=
            { source := "", destination := queueName, routingKey := queueName }
          let st := bindingAdd st defaultBinding
          let ops := if durable then
              [StoreOp.saveQueue queueName, StoreOp.saveBinding defaultBinding]
            else []
          (st, if ¬ noWait then
              [Output.queueDeclareOk ch.channelNumber queueName 0 0]
            else [], ops)

/-! ## Connection.Tune-Ok (src/server.ts `handleConnectionMethod`) -/

/-- Parsed Tune-Ok arguments (src/protocol/types `ConnectionTuneOkArgs`). -/
structure TuneOkArgs where
  channelMax : Nat
  frameMax : Nat
  heartbeat : Nat
deriving DecidableEq, Repr

/-- `parseConnectionTuneOk`: `readUInt16BE(0)`, `readUInt32BE(2)`,
`readUInt16BE(6)`; Node throws when fewer than 8 bytes are available. -/
def parseConnectionTuneOk (args : List Nat) : Option TuneOkArgs :=
  match args with
  | b0 :: b1 :: b2 :: b3 :: b4 :: b5 :: b6 :: b7 :: _ =>
    some { channelMax := b0 * 2 ^ 8 + b1,
           frameMax := b2 * 2 ^ 24 + b3 * 2 ^ 16 + b4 * 2 ^ 8 + b5,
           heartbeat := b6 * 2 ^ 8 + b7 }
  | _ => none

/-- The `TUNE_OK` case: `channelMax`/`frameMax` use `min(client || server,
server)` (zero falls back to the server value); `heartbeat` is plain
`Math.min(client, server)` with no zero fallback. -/
def negotiateTuneOk (args : TuneOkArgs)
    (serverChannelMax serverFrameMax serverHeartbeat : Nat) : TuneOkArgs :=
  { channelMax :=
      min (if args.channelMax = 0 then serverChannelMax else args.channelMax)
        serverChannelMax
    frameMax :=
      min (if args.frameMax = 0 then serverFrameMax else args.frameMax)
        serverFrameMax
    heartbeat := min args.heartbeat serverHeartbeat }

/-! ## Publish completion and channel/connection cleanup (src/server.ts) -/

/-- `DeepMQBroker.completeMessage`: assemble the message from the pending
chunks, clear the pending slot, route; on an empty route set return the
message to the publisher iff `mandatory` (Basic.Return 313 "No route" with
the original exchange/routing key, then header and body frames), else drop;
on a non-empty route set enqueue per routed queue, persist durable persistent
copies, and synchronously attempt delivery to the queue's consumers. -/
def completeMessage (st : Broker) (chKey : Nat) (freshId : String) (now : Nat)
    (frameMax : Nat) : Broker × List Output × List StoreOp :=
  match findChannel st chKey with
  | none => (st, [], [])
  | some ch =>
    match ch.pendingMessage with
    | none => (st, [], [])
    | some pending =>
      let content := pending.bodyChunks.flatten
      let msg := createMessage pending.exchange pending.routingKey content
        pending.properties pending.mandatory pending.immediate freshId now
      let st := setChannel st chKey (fun c => { c with pendingMessage := none })
      let routed := route st.exchanges st.queues st.bindings msg
      if routed.isEmpty then
        if pending.mandatory then
          (st,
           Output.basicReturn ch.channelNumber NO_CONSUMERS "No route"
               pending.exchange pending.routingKey
             :: messageFrames ch.channelNumber content pending.properties frameMax,
           [])
        else (st, [], [])
      else
        routed.foldl
          (fun (acc : Broker × List Output × List StoreOp) q =>
            let st := setQueue acc.1 q.name (fun q2 => q2.enqueue msg)
            let ops := acc.2.2 ++
              (if q.durable ∧ pending.properties.deliveryMode = some 2 then
                [StoreOp.saveMessage q.name msg] else [])
            (consumersByQueue st q.name).foldl
              (fun (acc2 : Broker × List Output × List StoreOp) c =>
                let r := deliverToConsumerB acc2.1 c frameMax
                (r.1, acc2.2.1 ++ r.2.1, acc2.2.2 ++ r.2.2))
              (st, acc.2.1, ops))
          (st, [], [])

/-- `DeepMQBroker.cleanupChannel`: cancel the channel's consumers (registry
removal plus per-queue consumer-count decrement), requeue every unacked entry
to the head of its source queue in map order, then close and drop the
channel. -/
def cleanupChannel (st : Broker) (chKey : Nat) : Broker :=
  match findChannel st chKey with
  | none => st
  | some ch =>
    let removed := st.consumers.filter (fun c => c.channelKey = chKey)
    let st := { st with consumers := st.consumers.filter (fun c => ¬ c.channelKey = chKey) }
    let st := decrementConsumers removed st
    let st := requeueAll true ch.unackedMessages st
    { st with channels := st.channels.filter (fun c => ¬ c.key = chKey) }

/-- `DeepMQBroker.cleanupConnection`: clean every channel of the connection,
then delete the exclusive queues it owns together with all bindings whose
destination is such a queue. -/
def cleanupConnection (st : Broker) (connId : String) : Broker :=
  let chans := st.channels.filter (fun c => c.connId = connId)
  let st := chans.foldl (fun acc c => cleanupChannel acc c.key) st
  let owned := st.queues.filter (fun q => q.exclusiveConnectionId = some connId)
  let st := { st with
    queues := st.queues.filter (fun q => ¬ q.exclusiveConnectionId = some connId) }
  { st with
    bindings := st.bindings.filter
      (fun b => ¬ owned.any (fun q => q.name = b.destination)) }

/-! ## Structural lemmas about the shared folds -/

/-- A broker fold whose step preserves a projection preserves it overall. -/
theorem foldl_broker_pres {α β : Type} (proj : Broker → β) (g : Broker → α → Broker)
    (hg : ∀ st a, proj (g st a) = proj st) :
    ∀ (l : List α) (st : Broker), proj (l.foldl g st) = proj st := by
  intro l
  induction l with
  | nil => intro st; rfl
  | cons a rest ih => intro st; rw [List.foldl_cons, ih, hg]

theorem setQueue_consumers (st : Broker) (n : String) (f : Queue → Queue) :
    (setQueue st n f).consumers = st.consumers := rfl

theorem setQueue_channels (st : Broker) (n : String) (f : Queue → Queue) :
    (setQueue st n f).channels = st.channels := rfl

theorem requeueAll_consumers (front : Bool) (l : List UnackedMessage) (st : Broker) :
    (requeueAll front l st).consumers = st.consumers := by
  unfold requeueAll
  apply foldl_broker_pres
  intro st2 u
  cases hfq : findQueue st2.queues u.queueName <;> simp [hfq, setQueue]

theorem requeueAll_channels (front : Bool) (l : List UnackedMessage) (st : Broker) :
    (requeueAll front l st).channels = st.channels := by
  unfold requeueAll
  apply foldl_broker_pres
  intro st2 u
  cases hfq : findQueue st2.queues u.queueName <;> simp [hfq, setQueue]

theorem decrementConsumers_channels (l : List Consumer) (st : Broker) :
    (decrementConsumers l st).channels = st.channels := by
  unfold decrementConsumers
  apply foldl_broker_pres
  intro st2 c
  cases hfq : findQueue st2.queues c.queueName <;> simp [hfq, setQueue]

theorem decrementConsumers_consumers (l : List Consumer) (st : Broker) :
    (decrementConsumers l st).consumers = st.consumers := by
  unfold decrementConsumers
  apply foldl_broker_pres
  intro st2 c
  cases hfq : findQueue st2.queues c.queueName <;> simp [hfq, setQueue]

theorem decrementConsumers_bindings (l : List Consumer) (st : Broker) :
    (decrementConsumers l st).bindings = st.bindings := by
  unfold decrementConsumers
  apply foldl_broker_pres
  intro st2 c
  cases hfq : findQueue st2.queues c.queueName <;> simp [hfq, setQueue]

theorem requeueAll_bindings (front : Bool) (l : List UnackedMessage) (st : Broker) :
    (requeueAll front l st).bindings = st.bindings := by
  unfold requeueAll
  apply foldl_broker_pres
  intro st2 u
  cases hfq : findQueue st2.queues u.queueName <;> simp [hfq, setQueue]

/-- Requeueing preserves the queue name. -/
theorem requeue_name (q : Queue) (m : Message) (front : Bool) :
    (q.requeue m front).name = q.name := by
  unfold Queue.requeue
  split <;> rfl

/-- `requeueAll` over a single-queue table: `front = true` stacks the entries
onto the head in reverse order, `front = false` appends them in order. -/
theorem requeueAll_queues (front : Bool) (l : List UnackedMessage) :
    ∀ (st : Broker) (q : Queue), st.queues = [q] →
    (∀ u ∈ l, u.queueName = q.name) →
    (requeueAll front l st).queues
      = [{ q with messages :=
            if front then (l.map (fun u => u.message)).reverse ++ q.messages
            else q.messages ++ l.map (fun u => u.message) }] := by
  induction l with
  | nil =>
    intro st q hq _
    simp only [requeueAll, List.foldl_nil, hq, List.map_nil, List.reverse_nil,
      List.nil_append, List.append_nil]
    split <;> rfl
  | cons u rest ih =>
    intro st q hq hnames
    have hname : u.queueName = q.name := hnames u (by simp)
    have hfq : findQueue st.queues u.queueName = some q := by
      rw [hq]
      simp [findQueue, List.find?, hname]
    have hstep : requeueAll front (u :: rest) st
        = requeueAll front rest
            (setQueue st u.queueName (fun qq => qq.requeue u.message front)) := by
      simp only [requeueAll, List.foldl_cons, hfq]
    rw [hstep]
    have hq2 : (setQueue st u.queueName
        (fun qq => qq.requeue u.message front)).queues
        = [q.requeue u.message front] := by
      simp [setQueue, hq, hname]
    have hnames2 : ∀ v ∈ rest, v.queueName = (q.requeue u.message front).name := by
      intro v hv
      rw [requeue_name]
      exact hnames v (by simp [hv])
    rw [ih _ _ hq2 hnames2]
    cases front <;> simp [Queue.requeue, List.append_assoc]

/-- `decrementConsumers` over a single-queue table only changes that queue's
consumer count. -/
theorem decrementConsumers_queues_single (l : List Consumer) :
    ∀ (st : Broker) (q : Queue), st.queues = [q] →
    ∃ k, (decrementConsumers l st).queues = [{ q with consumerCount := k }] := by
  induction l with
  | nil =>
    intro st q hq
    exact ⟨q.consumerCount, by simp [decrementConsumers, hq]⟩
  | cons c rest ih =>
    intro st q hq
    by_cases hcq : q.name = c.queueName
    · have hfq : findQueue st.queues c.queueName = some q := by
        simp [findQueue, hq, List.find?, hcq]
      have hstep : decrementConsumers (c :: rest) st
          = decrementConsumers rest (setQueue st c.queueName Queue.removeConsumer) := by
        simp only [decrementConsumers, List.foldl_cons, hfq]
      rw [hstep]
      have hq2 : (setQueue st c.queueName Queue.removeConsumer).queues
          = [{ q with consumerCount := q.consumerCount - 1 }] := by
        simp [setQueue, hq, hcq, Queue.removeConsumer]
      obtain ⟨k, hk⟩ := ih _ _ hq2
      exact ⟨k, by simpa using hk⟩
    · have hfq : findQueue st.queues c.queueName = none := by
        simp [findQueue, hq, List.find?, hcq]
      have hstep : decrementConsumers (c :: rest) st = decrementConsumers rest st := by
        simp only [decrementConsumers, List.foldl_cons, hfq]
      rw [hstep]
      exact ih _ _ hq

/-- The recover handler's tracking-clear loop empties the unacked map. -/
theorem ackFold_clears : ∀ (l : List UnackedMessage) (ch : Channel),
    ch.unackedMessages = l →
    (l.foldl (fun c u => (Channel.ack c u.deliveryTag false).2) ch).unackedMessages
      = [] := by
  intro l
  induction l with
  | nil => intro ch h; simpa using h
  | cons u rest ih =>
    intro ch h
    rw [List.foldl_cons]
    apply ih
    simp [Channel.ack, h, List.find?, List.eraseP_cons_of_pos]

/-! ### Queue-identity projection (for the connection-cleanup claims) -/

/-- The name and exclusive owner of every queue, in table order. -/
def ownership (st : Broker) : List (String × Option String) :=
  st.queues.map (fun q => (q.name, q.exclusiveConnectionId))

theorem ownership_setQueue (st : Broker) (n : String) (f : Queue → Queue)
    (hf : ∀ q, (f q).name = q.name)
    (hf2 : ∀ q, (f q).exclusiveConnectionId = q.exclusiveConnectionId) :
    ownership (setQueue st n f) = ownership st := by
  show (st.queues.map fun q => if q.name = n then f q else q).map
      (fun q => (q.name, q.exclusiveConnectionId))
    = st.queues.map (fun q => (q.name, q.exclusiveConnectionId))
  generalize st.queues = l
  induction l with
  | nil => rfl
  | cons a as ih =>
    simp only [List.map_cons, ih]
    by_cases h : a.name = n <;> simp [h, hf, hf2]

theorem requeueAll_ownership (front : Bool) (l : List UnackedMessage) (st : Broker) :
    ownership (requeueAll front l st) = ownership st := by
  unfold requeueAll
  refine foldl_broker_pres ownership _ ?_ l st
  intro st2 u
  cases hfq : findQueue st2.queues u.queueName with
  | none => simp [hfq]
  | some q =>
    simp only [hfq]
    exact ownership_setQueue st2 u.queueName _
      (fun q2 => by unfold Queue.requeue; split <;> rfl)
      (fun q2 => by unfold Queue.requeue; split <;> rfl)

theorem decrementConsumers_ownership (l : List Consumer) (st : Broker) :
    ownership (decrementConsumers l st) = ownership st := by
  unfold decrementConsumers
  refine foldl_broker_pres ownership _ ?_ l st
  intro st2 c
  cases hfq : findQueue st2.queues c.queueName with
  | none => simp [hfq]
  | some q =>
    simp only [hfq]
    exact ownership_setQueue st2 c.queueName _ (fun _ => rfl) (fun _ => rfl)

theorem ownership_channels (st : Broker) (l : List Channel) :
    ownership { st with channels := l } = ownership st := rfl

theorem ownership_consumers (st : Broker) (l : List Consumer) :
    ownership { st with consumers := l } = ownership st := rfl

theorem cleanupChannel_ownership (st : Broker) (k : Nat) :
    ownership (cleanupChannel st k) = ownership st := by
  unfold cleanupChannel
  cases hfc : findChannel st k with
  | none => rfl
  | some ch =>
    simp only [ownership_channels, requeueAll_ownership,
      decrementConsumers_ownership, ownership_consumers]

/-- After `cleanupConnection(C)` no queue exclusively owned by `C` remains. -/
theorem cleanupConnection_queues (st : Broker) (connId : String) :
    ∀ qq ∈ (cleanupConnection st connId).queues,
      ¬ qq.exclusiveConnectionId = some connId := by
  intro qq hqq
  unfold cleanupConnection at hqq
  simp only [List.mem_filter] at hqq
  simpa using hqq.2

/-- After `cleanupConnection(C)` no surviving binding targets a queue that
was exclusively owned by `C`. -/
theorem cleanupConnection_bindings (st : Broker) (connId : String) :
    ∀ b ∈ (cleanupConnection st connId).bindings,
    ∀ qq ∈ st.queues, qq.exclusiveConnectionId = some connId →
      ¬ qq.name = b.destination := by
  intro b hb qq hqq hexcl heq
  unfold cleanupConnection at hb
  simp only [List.mem_filter, List.any_eq_true, decide_eq_true_eq, not_exists,
    not_and, Bool.not_eq_true'] at hb
  have hown : ownership
      ((st.channels.filter (fun c => c.connId = connId)).foldl
        (fun acc c => cleanupChannel acc c.key) st) = ownership st :=
    foldl_broker_pres ownership (fun acc c => cleanupChannel acc c.key)
      (fun s (c : Channel) => cleanupChannel_ownership s c.key) _ st
  have hmem : (qq.name, qq.exclusiveConnectionId) ∈ ownership st :=
    List.mem_map_of_mem _ hqq
  rw [← hown] at hmem
  obtain ⟨qq2, hqq2, heq2⟩ := List.mem_map.mp hmem
  have h1 : qq2.name = qq.name := congrArg Prod.fst heq2
  have h2 : qq2.exclusiveConnectionId = qq.exclusiveConnectionId :=
    congrArg Prod.snd heq2
  have hbad := hb.2 qq2 ⟨hqq2, by rw [h2]; exact hexcl⟩
  rw [h1, heq] at hbad
  simp at hbad

/-! ## Claim verification

Fixtures used by the closed witness/counterexample theorems. -/

/-- A sample message sitting on queue `"q"`. -/
def msgH : Message :=
  { id := "m1", exchange := "", routingKey := "q", mandatory := false,
    immediate := false, properties := {}, content := [104, 105], timestamp := 0 }

/-- A second, distinct sample message. -/
def msgK : Message :=
  { id := "m2", exchange := "", routingKey := "q", mandatory := false,
    immediate := false, properties := {}, content := [107], timestamp := 0 }

/-- `c.canReceive ch` holds exactly when flow is active and QoS admits. -/
theorem canReceive_iff (c : Consumer) (ch : Channel) :
    c.canReceive ch = true ↔ (ch.flowActive = true ∧ ch.canDeliver = true) := by
  unfold Consumer.canReceive
  by_cases h : ch.flowActive <;> simp [h]

/-- **C1** (amended part): consumer dispatch respects the prefetch window.
If `prefetchCount = N > 0` and the unacked map holds at most `N` entries,
`deliverToConsumer` leaves at most `N` entries: it only delivers when the
count is strictly below `N`, and a delivery adds at most one entry. -/
theorem C1_deliver_preserves_prefetch (c : Consumer) (ch : Channel)
    (qs : List Queue) (fm N : Nat) (hN : ch.prefetchCount = N) (hpos : 0 < N)
    (hle : ch.unackedMessages.length ≤ N) :
    (deliverToConsumer c ch qs fm).1.unackedMessages.length ≤ N := by
  unfold deliverToConsumer
  by_cases hcr : c.canReceive ch
  · simp only [hcr, not_true_eq_false, if_false]
    cases hfq : findQueue qs c.queueName with
    | none => simpa using hle
    | some q =>
      cases hm : q.messages with
      | nil => simp only [hm]; simpa using hle
      | cons m restMsgs =>
        simp only [hm, Channel.nextDeliveryTag]
        by_cases hna : c.noAck
        · simpa [hna] using hle
        · rw [if_pos (by simp [hna])]
          unfold Channel.trackUnacked
          split
          · simpa using hle
          · have hdel : ch.canDeliver = true := (canReceive_iff c ch).mp hcr |>.2
            unfold Channel.canDeliver at hdel
            rw [hN] at hdel
            have hne : ¬ N = 0 := by omega
            simp only [hne, if_false] at hdel
            simp only [decide_eq_true_eq] at hdel
            simp [List.length_append]
            omega
  · simpa [hcr] using hle

def chC1 : Channel :=
  { key := 0, connId := "c1", channelNumber := 1, state := .chOpen,
    flowActive := true, prefetchSize := 0, prefetchCount := 1, qosGlobal := false,
    deliveryTagCounter := 0, unackedMessages := [], consumers := [],
    pendingMessage := none }

def consC1 : Consumer :=
  { consumerTag := "t1", queueName := "q", noLocal := false, noAck := false,
    exclusive := false, channelKey := 0 }

def qH : Queue :=
  { name := "q", durable := false, exclusive := false, autoDelete := false,
    exclusiveConnectionId := none, messages := [msgH], consumerCount := 1 }

/-- Witness for C1: a prefetch-1 channel with an empty unacked map stays
within its window after one dispatch. -/
theorem C1_witness :
    chC1.prefetchCount = 1 ∧ 0 < 1 ∧ chC1.unackedMessages.length ≤ 1 ∧
    (deliverToConsumer consC1 chC1 [qH] 131072).1.unackedMessages.length ≤ 1 :=
  ⟨by decide, by decide, by decide,
   C1_deliver_preserves_prefetch consC1 chC1 [qH] 131072 1 (by decide) (by decide)
     (by decide)⟩

/-- The unacked entry already filling the prefetch-1 window. -/
def uC1 : UnackedMessage :=
  { message := msgK, queueName := "q", deliveryTag := 1, consumerTag := "t1" }

def chC1x : Channel :=
  { chC1 with deliveryTagCounter := 1, unackedMessages := [uC1] }

def stC1 : Broker :=
  { exchanges := [], queues := [qH], bindings := [], consumers := [],
    channels := [chC1x] }

/-- **C1** counterexample: the `Basic.Get` handler performs no prefetch
check.  On a prefetch-1 channel already holding one unacked entry, a get with
`noAck = false` tracks a second entry, so `unackedCount = 2 > 1`. -/
theorem C1_counterexample :
    chC1x.prefetchCount = 1 ∧ chC1x.unackedMessages.length = 1 ∧
    ((handleBasicGet stC1 0 "q" false 131072).1.channels.map
      fun c => c.unackedMessages.length) = [2] :=
  ⟨by decide, by decide, by decide⟩

/-- **C3** (amended): `deliverToConsumer` dispatches iff the channel's flow
is active, QoS admits (`prefetchCount = 0` or `unackedCount < prefetchCount`),
and the consumer's queue exists and is non-empty.  The channel's `state` is
not consulted. -/
theorem C3_dispatch_guard (c : Consumer) (ch : Channel) (qs : List Queue)
    (fm : Nat) :
    ((deliverToConsumer c ch qs fm).2.2.2.2).isSome = true ↔
      (ch.flowActive = true ∧ ch.canDeliver = true ∧
       ∃ q, findQueue qs c.queueName = some q ∧ q.messages ≠ []) := by
  unfold deliverToConsumer
  by_cases hcr : c.canReceive ch
  · have hflow := (canReceive_iff c ch).mp hcr
    simp only [hcr, not_true_eq_false, if_false]
    cases hfq : findQueue qs c.queueName with
    | none => simp [hfq]
    | some q =>
      cases hm : q.messages with
      | nil => simp [hfq, hm]
      | cons m restMsgs => simp [hfq, hm, hflow.1, hflow.2]
  · rw [if_pos hcr]
    constructor
    · intro h
      simp at h
    · rintro ⟨h1, h2, _⟩
      exact absurd ((canReceive_iff c ch).mpr ⟨h1, h2⟩) hcr

/-! ### Claim C2: Basic.Recover requeue positions -/

def uC2 : UnackedMessage :=
  { message := msgK, queueName := "q", deliveryTag := 1, consumerTag := "t1" }

def chC2 : Channel :=
  { key := 0, connId := "c1", channelNumber := 1, state := .chOpen,
    flowActive := true, prefetchSize := 0, prefetchCount := 0, qosGlobal := false,
    deliveryTagCounter := 1, unackedMessages := [uC2], consumers := [],
    pendingMessage := none }

def stC2 : Broker :=
  { exchanges := [], queues := [qH], bindings := [], consumers := [],
    channels := [chC2] }

/-- **C2** counterexample: with `requeue = true` the handler passes
`front = !requeue = false`, so the unacked message `msgK` lands at the TAIL
of queue `"q"` (behind the already-queued `msgH`), not at the head as the
claim states. -/
theorem C2_counterexample :
    ((handleBasicRecover stC2 0 true true 131072).1.queues.map
      (fun q => q.messages)) = [[msgH, msgK]] ∧ msgH ≠ msgK :=
  ⟨by decide, by decide⟩

/-- **C2** (amended): `Basic.Recover` requeues every unacked message of the
channel for both values of `requeue`, clears the unacked map, and replies
Recover-Ok for the synchronous variant; but the positions are the reverse of
the claim: `requeue = true` appends at the tail (in delivery order) and
`requeue = false` stacks onto the head (latest delivered first).  Stated for
a channel with no consumers (otherwise the handler's synchronous redelivery
loop runs afterwards) over a single-queue table. -/
theorem C2_recover_requeues (st : Broker) (ch : Channel) (q : Queue)
    (requeue sync : Bool) (fm : Nat)
    (hchans : st.channels = [ch]) (hopen : ch.state = .chOpen)
    (hcons : ch.consumers = []) (hq : st.queues = [q])
    (hnames : ∀ u ∈ ch.unackedMessages, u.queueName = q.name) :
    ((handleBasicRecover st ch.key requeue sync fm).1.queues
      = [{ q with messages :=
            if requeue then q.messages ++ ch.unackedMessages.map (fun u => u.message)
            else (ch.unackedMessages.map (fun u => u.message)).reverse ++ q.messages }])
    ∧ ((handleBasicRecover st ch.key requeue sync fm).1.channels.map
        (fun c => c.unackedMessages)) = [[]]
    ∧ (handleBasicRecover st ch.key requeue sync fm).2.1
        = (if sync then [Output.basicRecoverOk ch.channelNumber] else []) := by
  have hfc : findChannel st ch.key = some ch := by
    simp [findChannel, hchans, List.find?]
  unfold handleBasicRecover
  rw [hfc]
  simp only [hopen, hcons]
  have hrq := requeueAll_queues (!requeue) ch.unackedMessages st q hq hnames
  have hrc := requeueAll_channels (!requeue) ch.unackedMessages st
  have hclear := ackFold_clears ch.unackedMessages ch rfl
  simp only [redeliverLoop, List.foldl_nil]
  refine ⟨?_, ?_, by simp⟩
  · simp only [setChannel, hrq]
    cases requeue <;> simp
  · simp only [setChannel, hrc, hchans]
    simp [hclear]

/-- Witness for C2 at a concrete one-entry channel with `requeue = false`:
the entry returns to the head. -/
theorem C2_witness :
    stC2.channels = [chC2] ∧ chC2.state = .chOpen ∧ chC2.consumers = [] ∧
    stC2.queues = [qH] ∧
    (((handleBasicRecover stC2 chC2.key false true 131072).1.queues
      = [{ qH with messages :=
            (chC2.unackedMessages.map (fun u => u.message)).reverse ++ qH.messages }])
    ∧ ((handleBasicRecover stC2 chC2.key false true 131072).1.channels.map
        (fun c => c.unackedMessages)) = [[]]
    ∧ (handleBasicRecover stC2 chC2.key false true 131072).2.1
        = [Output.basicRecoverOk chC2.channelNumber]) := by
  refine ⟨by decide, by decide, by decide, by decide, ?_⟩
  have h := C2_recover_requeues stC2 chC2 qH false true 131072 (by decide)
    (by decide) (by decide) (by decide) (by decide)
  simpa using h

/-! ### Claim C4: channel cleanup requeues unacked entries -/

def uC4b : UnackedMessage :=
  { message := msgH, queueName := "q", deliveryTag := 2, consumerTag := "t1" }

def qEmpty : Queue :=
  { name := "q", durable := false, exclusive := false, autoDelete := false,
    exclusiveConnectionId := none, messages := [], consumerCount := 0 }

def chC4 : Channel :=
  { key := 0, connId := "c1", channelNumber := 1, state := .chOpen,
    flowActive := true, prefetchSize := 0, prefetchCount := 0, qosGlobal := false,
    deliveryTagCounter := 2, unackedMessages := [uC2, uC4b], consumers := [],
    pendingMessage := none }

def stC4 : Broker :=
  { exchanges := [], queues := [qEmpty], bindings := [], consumers := [],
    channels := [chC4] }

/-- **C4** counterexample: cleaning up a channel whose unacked map holds
`msgK` (delivered first, tag 1) then `msgH` (tag 2) leaves the queue as
`[msgH, msgK]`: the repeated `unshift` reverses delivery order, so the
earliest-delivered entry ends up FARTHEST from the head, not closest. -/
theorem C4_counterexample :
    chC4.unackedMessages.map (fun u => u.deliveryTag) = [1, 2] ∧
    ((cleanupChannel stC4 0).queues.map (fun q => q.messages)) = [[msgH, msgK]] ∧
    msgH ≠ msgK :=
  ⟨by decide, by decide, by decide⟩

/-- **C4** (amended): channel cleanup requeues every unacked entry to the
head of its source queue, in map order via `unshift`, so the requeued block
appears in REVERSE delivery order (latest delivered closest to the head);
every consumer of the channel is removed from the registry and the channel
itself is dropped.  Stated over a single-queue table. -/
theorem C4_cleanup (st : Broker) (ch : Channel) (q : Queue)
    (hchans : st.channels = [ch]) (hq : st.queues = [q])
    (hnames : ∀ u ∈ ch.unackedMessages, u.queueName = q.name) :
    ((cleanupChannel st ch.key).queues.map (fun qq => qq.messages))
      = [(ch.unackedMessages.map (fun u => u.message)).reverse ++ q.messages]
    ∧ (cleanupChannel st ch.key).consumers
      = st.consumers.filter (fun c => ¬ c.channelKey = ch.key)
    ∧ (cleanupChannel st ch.key).channels
      = st.channels.filter (fun c => ¬ c.key = ch.key) := by
  have hfc : findChannel st ch.key = some ch := by
    simp [findChannel, hchans, List.find?]
  unfold cleanupChannel
  rw [hfc]
  have hq1 : (Broker.mk st.exchanges st.queues st.bindings
      (st.consumers.filter (fun c => ¬ c.channelKey = ch.key)) st.channels).queues
      = [q] := hq
  obtain ⟨k, hk⟩ := decrementConsumers_queues_single
    (st.consumers.filter (fun c => c.channelKey = ch.key)) _ q hq1
  have hnames2 : ∀ u ∈ ch.unackedMessages,
      u.queueName = (Queue.mk q.name q.durable q.exclusive q.autoDelete
        q.exclusiveConnectionId q.messages k).name := hnames
  have hrq := requeueAll_queues true ch.unackedMessages _ _ hk hnames2
  refine ⟨?_, ?_, ?_⟩
  · simp only [hrq]
    simp
  · have h1 := requeueAll_consumers true ch.unackedMessages
      (decrementConsumers (st.consumers.filter (fun c => c.channelKey = ch.key))
        (Broker.mk st.exchanges st.queues st.bindings
          (st.consumers.filter (fun c => ¬ c.channelKey = ch.key)) st.channels))
    have h2 := decrementConsumers_consumers
      (st.consumers.filter (fun c => c.channelKey = ch.key))
      (Broker.mk st.exchanges st.queues st.bindings
        (st.consumers.filter (fun c => ¬ c.channelKey = ch.key)) st.channels)
    simp only [h1, h2]
  · have h1 := requeueAll_channels true ch.unackedMessages
      (decrementConsumers (st.consumers.filter (fun c => c.channelKey = ch.key))
        (Broker.mk st.exchanges st.queues st.bindings
          (st.consumers.filter (fun c => ¬ c.channelKey = ch.key)) st.channels))
    have h2 := decrementConsumers_channels
      (st.consumers.filter (fun c => c.channelKey = ch.key))
      (Broker.mk st.exchanges st.queues st.bindings
        (st.consumers.filter (fun c => ¬ c.channelKey = ch.key)) st.channels)
    simp only [h1, h2]

/-- Witness for C4 at the concrete two-entry channel. -/
theorem C4_witness :
    stC4.channels = [chC4] ∧ stC4.queues = [qEmpty] ∧
    (((cleanupChannel stC4 chC4.key).queues.map (fun qq => qq.messages))
      = [(chC4.unackedMessages.map (fun u => u.message)).reverse ++ qEmpty.messages]
    ∧ (cleanupChannel stC4 chC4.key).consumers
      = stC4.consumers.filter (fun c => ¬ c.channelKey = chC4.key)
    ∧ (cleanupChannel stC4 chC4.key).channels
      = stC4.channels.filter (fun c => ¬ c.key = chC4.key)) :=
  ⟨by decide, by decide,
   C4_cleanup stC4 chC4 qEmpty (by decide) (by decide) (by decide)⟩

/-! ### Claim C3: counterexample fixtures (channel state not checked) -/

def cC3 : Consumer :=
  { consumerTag := "t3", queueName := "q", noLocal := false, noAck := true,
    exclusive := false, channelKey := 0 }

def chC3 : Channel :=
  { key := 0, connId := "c1", channelNumber := 1, state := .closed,
    flowActive := true, prefetchSize := 0, prefetchCount := 0, qosGlobal := false,
    deliveryTagCounter := 0, unackedMessages := [], consumers := [],
    pendingMessage := none }

/-- **C3** counterexample: a channel in state `closed` (but with flow active
and no QoS limit) still gets a message dispatched — `canReceive` never looks
at the channel state. -/
theorem C3_counterexample :
    chC3.state ≠ .chOpen ∧
    (deliverToConsumer cC3 chC3 [qH] 131072).2.2.2.2 = some (1, msgH) :=
  ⟨by decide, by decide⟩

/-! ### Claim C5: Tune-Ok negotiation -/

/-- **C5** (amended): `channelMax` and `frameMax` are negotiated as claimed
(zero falls back to the server value, otherwise the min is taken), but
`heartbeat` is a plain `Math.min(client, server)` with no zero fallback, so a
client heartbeat of `0` yields `0`, not the server's value. -/
theorem C5_tune_negotiation (args : TuneOkArgs) (scm sfm shb : Nat) :
    (negotiateTuneOk args scm sfm shb).channelMax
      = (if args.channelMax = 0 then scm else min args.channelMax scm)
    ∧ (negotiateTuneOk args scm sfm shb).frameMax
      = (if args.frameMax = 0 then sfm else min args.frameMax sfm)
    ∧ (negotiateTuneOk args scm sfm shb).heartbeat = min args.heartbeat shb := by
  unfold negotiateTuneOk
  refine ⟨?_, ?_, rfl⟩
  · by_cases h : args.channelMax = 0 <;> simp [h]
  · by_cases h : args.frameMax = 0 <;> simp [h]

/-- **C5** counterexample: a Tune-Ok wire payload carrying heartbeat `0`
negotiates to heartbeat `0` against the server default `60`, where the claim
predicts `60`. -/
theorem C5_counterexample :
    parseConnectionTuneOk [0, 100, 0, 2, 0, 0, 0, 0]
      = some { channelMax := 100, frameMax := 131072, heartbeat := 0 }
    ∧ (negotiateTuneOk { channelMax := 100, frameMax := 131072, heartbeat := 0 }
        DEFAULT_CHANNEL_MAX DEFAULT_FRAME_MAX DEFAULT_HEARTBEAT).heartbeat = 0
    ∧ DEFAULT_HEARTBEAT ≠ 0 :=
  ⟨by decide, by decide, by decide⟩

/-! ### Claim C6: topic matcher on the empty routing key -/

/-- **C6** (amended): a bare `#` pattern matches every routing key, and the
empty routing key matches the empty pattern, `#`, and `#.#`; but because JS
`"".split('.')` is `[""]` (one empty word, not zero words), the empty routing
key ALSO matches `*`, contradicting the claim.  It still fails against a
literal word. -/
theorem C6_topic_empty_key :
    (∀ key : String, matchesPattern key "#" = true)
    ∧ matchesPattern "" "" = true
    ∧ matchesPattern "" "#" = true
    ∧ matchesPattern "" "#.#" = true
    ∧ matchesPattern "" "*" = true
    ∧ matchesPattern "" "a" = false := by
  refine ⟨?_, ?_, ?_, ?_, ?_, ?_⟩
  · intro key
    unfold matchesPattern
    have h : splitOnDot "#" = ["#"] := by decide
    rw [h]
    cases splitOnDot key with
    | nil => simp [matchWords]
    | cons a as => simp [matchWords]
  · have h : matchesPattern "" "" = matchWords [""] [""] :=
      matchesPattern_eval (by decide) (by decide)
    rw [h]; simp [matchWords]
  · have h : matchesPattern "" "#" = matchWords [""] ["#"] :=
      matchesPattern_eval (by decide) (by decide)
    rw [h]; simp [matchWords]
  · have h : matchesPattern "" "#.#" = matchWords [""] ["#", "#"] :=
      matchesPattern_eval (by decide) (by decide)
    rw [h]; simp [matchWords, matchHash]
  · have h : matchesPattern "" "*" = matchWords [""] ["*"] :=
      matchesPattern_eval (by decide) (by decide)
    rw [h]; simp [matchWords]
  · have h : matchesPattern "" "a" = matchWords [""] ["a"] :=
      matchesPattern_eval (by decide) (by decide)
    rw [h]; simp [matchWords]

/-- **C6** counterexample: the empty routing key matches the single-star
pattern, which the claim rules out. -/
theorem C6_counterexample : matchesPattern "" "*" = true := by
  have h : matchesPattern "" "*" = matchWords [""] ["*"] :=
    matchesPattern_eval (by decide) (by decide)
  rw [h]; simp [matchWords]

/-! ### Claim C7: exclusive queues -/

def qX : Queue :=
  { name := "qx", durable := false, exclusive := true, autoDelete := false,
    exclusiveConnectionId := some "c1", messages := [msgH], consumerCount := 0 }

def chC7 : Channel :=
  { key := 5, connId := "c2", channelNumber := 1, state := .chOpen,
    flowActive := true, prefetchSize := 0, prefetchCount := 0, qosGlobal := false,
    deliveryTagCounter := 0, unackedMessages := [], consumers := [],
    pendingMessage := none }

def stC7 : Broker :=
  { exchanges := [], queues := [qX], bindings := [], consumers := [],
    channels := [chC7] }

/-- **C7** counterexample: the `Basic.Get` handler never calls `canAccess`,
so a channel of connection `"c2"` successfully drains an exclusive queue
owned by `"c1"` and receives Get-Ok. -/
theorem C7_counterexample :
    qX.canAccess "c2" = false ∧ chC7.connId = "c2" ∧
    ((handleBasicGet stC7 5 "qx" true 131072).1.queues.map
      (fun q => q.messages)) = [[]] ∧
    (handleBasicGet stC7 5 "qx" true 131072).2.1.head?
      = some (Output.basicGetOk 1 1 false msgH.exchange msgH.routingKey 0) :=
  ⟨by decide, by decide, by decide, by decide⟩

/-- **C7** (amended): exclusive-queue protection holds for Queue.Declare
(passive and active) and Basic.Consume — each fails with ResourceLocked 405
from a foreign connection — and connection cleanup deletes the owned queues
together with every binding targeting them; but `Basic.Get` performs no
access check at all (see the counterexample). -/
theorem C7_exclusive_access (st : Broker) (ch : Channel) (connId : String)
    (q : Queue) (durable exclusive autoDelete noWait : Bool)
    (fn ftag : String) (nl na ex nw : Bool) (fm : Nat)
    (hfc : findChannel st ch.key = some ch) (hopen : ch.state = .chOpen)
    (hnm : ¬ q.name = "")
    (hfq : findQueue st.queues q.name = some q)
    (hacc : q.canAccess connId = false)
    (hmatch : q.defMatches durable exclusive = true) :
    handleQueueDeclare st ch.key connId q.name true durable exclusive autoDelete noWait fn
      = (st, [Output.channelCloseErr ch.channelNumber RESOURCE_LOCKED
          "Queue is exclusive to another connection"], [])
    ∧ handleQueueDeclare st ch.key connId q.name false durable exclusive autoDelete noWait fn
      = (st, [Output.channelCloseErr ch.channelNumber RESOURCE_LOCKED
          "Queue is exclusive to another connection"], [])
    ∧ handleBasicConsume st ch.key connId q.name ftag nl na ex nw fn fm
      = (st, [Output.channelCloseErr ch.channelNumber RESOURCE_LOCKED
          "Queue is exclusive to another connection"], [])
    ∧ (∀ qq ∈ (cleanupConnection st connId).queues,
        ¬ qq.exclusiveConnectionId = some connId)
    ∧ (∀ b ∈ (cleanupConnection st connId).bindings,
        ∀ qq ∈ st.queues, qq.exclusiveConnectionId = some connId →
          ¬ qq.name = b.destination) := by
  refine ⟨?_, ?_, ?_, cleanupConnection_queues st connId,
    cleanupConnection_bindings st connId⟩
  · unfold handleQueueDeclare
    rw [hfc]
    simp only [hopen, hnm, if_false, ite_false]
    simp only [ne_eq, not_true_eq_false, if_false]
    rw [hfq]
    simp [hacc]
  · unfold handleQueueDeclare
    rw [hfc]
    simp only [hopen, hnm, if_false, ite_false]
    simp only [ne_eq, not_true_eq_false, if_false]
    rw [hfq]
    simp [hacc, hmatch]
  · unfold handleBasicConsume
    rw [hfc]
    simp only [hopen, ne_eq, not_true_eq_false, if_false]
    rw [hfq]
    simp [hacc]

/-- Witness for C7 at the concrete exclusive queue `qX` (owned by `"c1"`)
accessed from connection `"c2"`. -/
theorem C7_witness :
    findChannel stC7 chC7.key = some chC7 ∧ chC7.state = .chOpen ∧
    ¬ qX.name = "" ∧ findQueue stC7.queues qX.name = some qX ∧
    qX.canAccess "c2" = false ∧ qX.defMatches false true = true ∧
    (handleQueueDeclare stC7 chC7.key "c2" qX.name true false true false false "g"
      = (stC7, [Output.channelCloseErr chC7.channelNumber RESOURCE_LOCKED
          "Queue is exclusive to another connection"], [])
    ∧ handleQueueDeclare stC7 chC7.key "c2" qX.name false false true false false "g"
      = (stC7, [Output.channelCloseErr chC7.channelNumber RESOURCE_LOCKED
          "Queue is exclusive to another connection"], [])
    ∧ handleBasicConsume stC7 chC7.key "c2" qX.name "t" false false false false "g" 131072
      = (stC7, [Output.channelCloseErr chC7.channelNumber RESOURCE_LOCKED
          "Queue is exclusive to another connection"], [])
    ∧ (∀ qq ∈ (cleanupConnection stC7 "c2").queues,
        ¬ qq.exclusiveConnectionId = some "c2")
    ∧ (∀ b ∈ (cleanupConnection stC7 "c2").bindings,
        ∀ qq ∈ stC7.queues, qq.exclusiveConnectionId = some "c2" →
          ¬ qq.name = b.destination)) :=
  ⟨by decide, by decide, by decide, by decide, by decide, by decide,
   C7_exclusive_access stC7 chC7 "c2" qX false true false false "g" "t"
     false false false false 131072 (by decide) (by decide) (by decide)
     (by decide) (by decide) (by decide)⟩

/-! ### Claim C8: mandatory publish with no route -/

/-- **C8** (confirmed): when a completed publish routes to no queue, the
broker state only loses the pending slot (no queue is touched, nothing is
persisted), and the publisher receives `Basic.Return(313, "No route",
exchange, routingKey)` followed by the content header and body frames iff
`mandatory` was set; with `mandatory` unset nothing is emitted. -/
theorem C8_mandatory_no_route (st : Broker) (ch : Channel)
    (pending : PendingMessage) (freshId : String) (now fm : Nat)
    (hfc : findChannel st ch.key = some ch)
    (hp : ch.pendingMessage = some pending)
    (hroute : route st.exchanges st.queues st.bindings
        (createMessage pending.exchange pending.routingKey
          pending.bodyChunks.flatten pending.properties pending.mandatory
          pending.immediate freshId now) = []) :
    (completeMessage st ch.key freshId now fm).1
      = setChannel st ch.key (fun c => { c with pendingMessage := none })
    ∧ (completeMessage st ch.key freshId now fm).2.1
      = (if pending.mandatory then
          Output.basicReturn ch.channelNumber NO_CONSUMERS "No route"
              pending.exchange pending.routingKey
            :: messageFrames ch.channelNumber pending.bodyChunks.flatten
                pending.properties fm
        else [])
    ∧ (completeMessage st ch.key freshId now fm).2.2 = [] := by
  unfold completeMessage
  rw [hfc]
  simp only [hp, setChannel]
  rw [hroute]
  by_cases hm : pending.mandatory <;> simp [hm]

def pendC8 : PendingMessage :=
  { exchange := "nope", routingKey := "rk", mandatory := true,
    immediate := false, properties := {}, bodySize := 1,
    bodyChunks := [[104]], receivedSize := 1 }

def chC8 : Channel :=
  { key := 7, connId := "c1", channelNumber := 2, state := .chOpen,
    flowActive := true, prefetchSize := 0, prefetchCount := 0, qosGlobal := false,
    deliveryTagCounter := 0, unackedMessages := [], consumers := [],
    pendingMessage := some pendC8 }

def stC8 : Broker :=
  { exchanges := [], queues := [], bindings := [], consumers := [],
    channels := [chC8] }

/-- Witness for C8: publishing to a nonexistent exchange with `mandatory`
returns the message. -/
theorem C8_witness :
    findChannel stC8 chC8.key = some chC8 ∧
    chC8.pendingMessage = some pendC8 ∧
    route stC8.exchanges stC8.queues stC8.bindings
      (createMessage pendC8.exchange pendC8.routingKey
        pendC8.bodyChunks.flatten pendC8.properties pendC8.mandatory
        pendC8.immediate "id1" 0) = [] ∧
    ((completeMessage stC8 chC8.key "id1" 0 131072).1
      = setChannel stC8 chC8.key (fun c => { c with pendingMessage := none })
    ∧ (completeMessage stC8 chC8.key "id1" 0 131072).2.1
      = (if pendC8.mandatory then
          Output.basicReturn chC8.channelNumber NO_CONSUMERS "No route"
              pendC8.exchange pendC8.routingKey
            :: messageFrames chC8.channelNumber pendC8.bodyChunks.flatten
                pendC8.properties 131072
        else [])
    ∧ (completeMessage stC8 chC8.key "id1" 0 131072).2.2 = []) :=
  ⟨by decide, by decide, by decide,
   C8_mandatory_no_route stC8 chC8 pendC8 "id1" 0 131072 (by decide)
     (by decide) (by decide)⟩

/-! ### Claim C9: field-table codec round trip -/

/-- **C9** (amended): the field-table codec round-trips only for tables whose
timestamps are whole seconds: the encoder floors `Date` values to seconds
(`Math.floor(getTime() / 1000)`), so sub-second timestamps do not survive
(see the counterexample).  For every table with whole-second timestamps that
the encoder accepts, decoding the encoding returns the table and consumes
exactly its bytes.  (IEEE-754 floats, doubles and decimals go through a lossy
`number` representation and are outside the integer-exact model.) -/
theorem C9_fieldTable_roundTrip (t : List (List Nat × FieldValue)) (b : List Nat)
    (hw : wholeSecsPairs t = true) (he : encodeFieldTable t = some b) :
    readTable b = some (t, b.length) :=
  fieldTable_roundTrip t b hw he

/-- Witness for C9 on a concrete two-entry table (a boolean and a small
integer). -/
theorem C9_witness :
    wholeSecsPairs [([107], FieldValue.vBool true), ([108], FieldValue.vNum 7)]
      = true
    ∧ encodeFieldTable [([107], FieldValue.vBool true), ([108], FieldValue.vNum 7)]
      = some [0, 0, 0, 8, 1, 107, 116, 1, 1, 108, 98, 7]
    ∧ readTable [0, 0, 0, 8, 1, 107, 116, 1, 1, 108, 98, 7]
      = some ([([107], FieldValue.vBool true), ([108], FieldValue.vNum 7)], 12) := by
  have hw : wholeSecsPairs
      [([107], FieldValue.vBool true), ([108], FieldValue.vNum 7)] = true := by
    simp [wholeSecsPairs, wholeSecs]
  have he : encodeFieldTable
      [([107], FieldValue.vBool true), ([108], FieldValue.vNum 7)]
      = some [0, 0, 0, 8, 1, 107, 116, 1, 1, 108, 98, 7] := by
    simp [encodeFieldTable, encodePairs, encodeFieldValue, encodeShortString,
      i8Bytes, u32Bytes]
  refine ⟨hw, he, ?_⟩
  have h := C9_fieldTable_roundTrip _ _ hw he
  simpa using h

/-- **C9** counterexample: a timestamp of 1500 ms is encoded as the floored
second `1`, and decodes to 1000 ms — the round trip loses sub-second
precision. -/
theorem C9_counterexample :
    wholeSecsPairs [([107], FieldValue.vDate 1500)] = false
    ∧ encodeFieldTable [([107], FieldValue.vDate 1500)]
        = some [0, 0, 0, 11, 1, 107, 84, 0, 0, 0, 0, 0, 0, 0, 1]
    ∧ readTable [0, 0, 0, 11, 1, 107, 84, 0, 0, 0, 0, 0, 0, 0, 1]
        = some ([([107], FieldValue.vDate 1000)], 15)
    ∧ ¬ (FieldValue.vDate 1000 = FieldValue.vDate 1500) := by
  have hf15 : Int.fdiv (1500 : Int) 1000 = 1 := by decide
  have hf10 : Int.fdiv (1000 : Int) 1000 = 1 := by decide
  have he2 : encodeFieldTable [([107], FieldValue.vDate 1000)]
      = some [0, 0, 0, 11, 1, 107, 84, 0, 0, 0, 0, 0, 0, 0, 1] := by
    simp [encodeFieldTable, encodePairs, encodeFieldValue, encodeShortString,
      u64Bytes, u32Bytes, hf10]
  refine ⟨?_, ?_, ?_, ?_⟩
  · simp [wholeSecsPairs, wholeSecs]
  · simp [encodeFieldTable, encodePairs, encodeFieldValue, encodeShortString,
      u64Bytes, u32Bytes, hf15]
  · have h := fieldTable_roundTrip _ _ (by simp [wholeSecsPairs, wholeSecs]) he2
    simpa using h
  · intro h
    simp at h

/-! ### Claim C10: operations on a missing delivery tag -/

/-- **C10** (amended): with a delivery tag absent from the unacked map,
`Channel.ack`/`reject` remove nothing, and the Reject and Nack handlers are
true no-ops (state unchanged, no output, no store ops, no error).  The Ack
handler, however, still runs its synchronous redelivery loop over the
channel's consumers after the no-op removal, so it is NOT a state no-op in
general (see the counterexample). -/
theorem C10_missing_tag_noop (st : Broker) (ch : Channel) (tag : Nat)
    (rq : Bool) (fm : Nat)
    (hchans : st.channels = [ch]) (hopen : ch.state = .chOpen)
    (hmiss : ∀ u ∈ ch.unackedMessages, ¬ u.deliveryTag = tag) :
    Channel.ack ch tag false = ([], ch)
    ∧ Channel.reject ch tag = (none, ch)
    ∧ handleBasicReject st ch.key tag rq = (st, [], [])
    ∧ handleBasicNack st ch.key tag false rq = (st, [], [])
    ∧ handleBasicAck st ch.key tag false fm
        = redeliverLoop ch.consumers fm (st, [], []) := by
  have hfind : ch.unackedMessages.find? (fun u => u.deliveryTag = tag) = none := by
    simp only [List.find?_eq_none, decide_eq_true_eq]
    exact hmiss
  have hack : Channel.ack ch tag false = ([], ch) := by
    unfold Channel.ack
    simp [hfind]
  have hrej : Channel.reject ch tag = (none, ch) := by
    unfold Channel.reject
    rw [hfind]
  have hfc : findChannel st ch.key = some ch := by
    simp [findChannel, hchans, List.find?]
  have hset : setChannel st ch.key (fun _ => ch) = st := by
    unfold setChannel
    rw [hchans]
    simp
    rw [← hchans]
  refine ⟨hack, hrej, ?_, ?_, ?_⟩
  · unfold handleBasicReject
    rw [hfc]
    simp only [hopen, ne_eq, not_true_eq_false, if_false]
    rw [hrej]
    simp only [hset]
  · unfold handleBasicNack
    rw [hfc]
    simp only [hopen, ne_eq, not_true_eq_false, if_false]
    unfold Channel.nack
    rw [hack]
    simp only [hset, List.foldl_nil]
  · unfold handleBasicAck
    rw [hfc]
    simp only [hopen, ne_eq, not_true_eq_false, if_false]
    rw [hack]
    simp only [hset, List.filterMap_nil]

/-- Witness for C10: acknowledging the absent tag `9` on a channel holding
only tag `1`. -/
theorem C10_witness :
    stC2.channels = [chC2] ∧ chC2.state = .chOpen ∧
    (∀ u ∈ chC2.unackedMessages, ¬ u.deliveryTag = 9) ∧
    (Channel.ack chC2 9 false = ([], chC2)
    ∧ Channel.reject chC2 9 = (none, chC2)
    ∧ handleBasicReject stC2 chC2.key 9 true = (stC2, [], [])
    ∧ handleBasicNack stC2 chC2.key 9 false true = (stC2, [], [])
    ∧ handleBasicAck stC2 chC2.key 9 false 131072
        = redeliverLoop chC2.consumers 131072 (stC2, [], [])) :=
  ⟨by decide, by decide, by decide,
   C10_missing_tag_noop stC2 chC2 9 true 131072 (by decide) (by decide)
     (by decide)⟩

def consC10 : Consumer :=
  { consumerTag := "tX", queueName := "q", noLocal := false, noAck := true,
    exclusive := false, channelKey := 0 }

def chC10 : Channel :=
  { key := 0, connId := "c1", channelNumber := 1, state := .chOpen,
    flowActive := true, prefetchSize := 0, prefetchCount := 0, qosGlobal := false,
    deliveryTagCounter := 0, unackedMessages := [], consumers := [consC10],
    pendingMessage := none }

def stC10 : Broker :=
  { exchanges := [], queues := [qH], bindings := [], consumers := [consC10],
    channels := [chC10] }

/-- **C10** counterexample: acknowledging a tag that was never issued still
runs the Ack handler's synchronous redelivery loop, which drains the queue to
the channel's consumer — a visible state change, so Basic.Ack on a missing
tag is not a no-op. -/
theorem C10_counterexample :
    chC10.unackedMessages = [] ∧
    ((handleBasicAck stC10 0 5 false 131072).1.queues.map
      (fun q => q.messages)) = [[]] ∧
    qH.messages ≠ [] :=
  ⟨by decide, by decide, by decide⟩

end DeepMQ
